import Mathlib

/-!
# Verification development for the stock screener's screening/scoring pipeline

Shallow embedding of the screening and scoring pipeline:
`src/scoring_engine.py` (ScoringEngine), `src/trend_scoring/ma_adx_scorer.py`
(MAADXScorer), `src/filters/trend_filter.py` (TrendFilter),
`src/filters/weekly_trend_filter.py` (WeeklyTrendFilter) and the pipeline
wiring in `main.py` (StockScreener.run_screening).

Modelling conventions:
* pandas cells are `Option ℚ`: `none` models NaN (an undefined value), and a
  float comparison with NaN is `false` (IEEE semantics), which the
  `cell*` comparison helpers reproduce.
* a pandas DataFrame is a `Frame`: an ordered list of rows plus the list of
  columns present in the frame.  A column can be absent from the frame
  (`c ∉ cols`, `row[c]` raises KeyError, `row.get(c, d)` yields `d`) or
  present with an undefined value in a given row (`none`, i.e. NaN).
* Python dicts are ordered association lists (insertion order).
* machine floats are embedded as ℚ.  Division by zero, which for numpy
  floats silently yields ±inf/NaN rather than raising, is collapsed to
  `none` by `cellDiv`; every claim proved below either guards that path the
  same way the source does or hypothesises a nonzero denominator.
* fallible code (`KeyError` on a missing weights key) returns
  `Except String`.
-/

/- Batteries marks the ℚ field operations `@[irreducible]`, which blocks
`decide` from evaluating the embedded (entirely computable) functions on
concrete inputs.  Restore the definitional transparency of the four
affected operations so concrete runs of the pipeline reduce. -/
set_option allowUnsafeReducibility true
attribute [semireducible] Rat.mul Rat.add Rat.inv Rat.sub

namespace StockScreener

instance {ε α : Type} [DecidableEq ε] [DecidableEq α] : DecidableEq (Except ε α) :=
  fun a b =>
    match a, b with
    | .ok x, .ok y => decidable_of_iff (x = y) (by simp)
    | .error x, .error y => decidable_of_iff (x = y) (by simp)
    | .ok _, .error _ => isFalse (by simp)
    | .error _, .ok _ => isFalse (by simp)

/-- A pandas cell: `none` models NaN / an undefined value. -/
abbrev Cell := Option ℚ

/-- The indicator columns touched by the embedded components. -/
inductive Col
  | close
  | high
  | low
  | volume
  | sma_5
  | sma_10
  | sma_20
  | sma_50
  | adx
  | plus_di
  | minus_di
  | price_change_1d
  | price_change_5d
  | rsi
  | volume_ratio
deriving DecidableEq, Repr

/-- One row of an indicator-augmented series; every cell may be NaN. -/
structure Row where
  close : Cell
  high : Cell
  low : Cell
  volume : Cell
  sma_5 : Cell
  sma_10 : Cell
  sma_20 : Cell
  sma_50 : Cell
deriving DecidableEq, Repr

/-- The all-NaN row, used as an out-of-range default (never observed on the
paths the theorems speak about, which all guard the length first). -/
def emptyRow : Row := ⟨none, none, none, none, none, none, none, none⟩

/-- A DataFrame: the columns present in it, and its rows in order. -/
structure Frame where
  cols : List Col
  rows : List Row
deriving DecidableEq, Repr

/-- Cell of a row under a column label (the stored value; meaningful when the
column is present in the frame). -/
def Row.cell (r : Row) : Col → Cell
  | .close => r.close
  | .high => r.high
  | .low => r.low
  | .volume => r.volume
  | .sma_5 => r.sma_5
  | .sma_10 => r.sma_10
  | .sma_20 => r.sma_20
  | .sma_50 => r.sma_50
  | _ => none

/-- `row.get(c, d)` on a pandas row: the default when the column is absent
from the frame, otherwise the stored cell (which may still be NaN). -/
def rowGet (f : Frame) (r : Row) (c : Col) (d : ℚ) : Cell :=
  if f.cols.contains c then r.cell c else some d

/-- Float `>` with NaN semantics: any comparison against NaN is false. -/
def cellGT (a b : Cell) : Bool :=
  match a, b with
  | some x, some y => decide (y < x)
  | _, _ => false

/-- Float `<` with NaN semantics. -/
def cellLT (a b : Cell) : Bool :=
  match a, b with
  | some x, some y => decide (x < y)
  | _, _ => false

/-- Float `<=` with NaN semantics. -/
def cellLE (a b : Cell) : Bool :=
  match a, b with
  | some x, some y => decide (x ≤ y)
  | _, _ => false

/-- Float `>=` with NaN semantics. -/
def cellGE (a b : Cell) : Bool :=
  match a, b with
  | some x, some y => decide (y ≤ x)
  | _, _ => false

/-- Float `==` with NaN semantics: `NaN == NaN` is false. -/
def cellEq (a b : Cell) : Bool :=
  match a, b with
  | some x, some y => decide (x = y)
  | _, _ => false

/-- NaN-propagating subtraction. -/
def cellSub (a b : Cell) : Cell :=
  match a, b with
  | some x, some y => some (x - y)
  | _, _ => none

/-- NaN-propagating addition. -/
def cellAdd (a b : Cell) : Cell :=
  match a, b with
  | some x, some y => some (x + y)
  | _, _ => none

/-- NaN-propagating multiplication. -/
def cellMul (a b : Cell) : Cell :=
  match a, b with
  | some x, some y => some (x * y)
  | _, _ => none

/-- NaN-propagating division.  A zero denominator, which for numpy floats
yields ±inf or NaN without raising, is collapsed to `none`; all uses below
either guard it like the source does or hypothesise it away. -/
def cellDiv (a b : Cell) : Cell :=
  match a, b with
  | some x, some y => if y = 0 then none else some (x / y)
  | _, _ => none

/-- `df.tail(n)` / `series.tail(n)`: the last `n` entries. -/
def lastN {α : Type} (n : ℕ) (l : List α) : List α :=
  l.drop (l.length - n)

/-- Arithmetic mean of a list of rationals (callers guard non-emptiness). -/
def qmean (l : List ℚ) : ℚ :=
  l.sum / (l.length : ℚ)

/-- pandas `Series.mean()` with its default `skipna=True`: the mean of the
defined values, NaN when none are defined. -/
def cellMean (l : List Cell) : Cell :=
  match l.filterMap id with
  | [] => none
  | v => some (qmean v)

/-- pandas `Series.max()` (skipna): max of the defined values. -/
def cellMax (l : List Cell) : Cell :=
  match l.filterMap id with
  | [] => none
  | x :: xs => some (xs.foldl max x)

/-- pandas `Series.min()` (skipna): min of the defined values. -/
def cellMin (l : List Cell) : Cell :=
  match l.filterMap id with
  | [] => none
  | x :: xs => some (xs.foldl min x)

/-- Floor of a rational as an integer (computable, kernel-reducible). -/
def qfloor (q : ℚ) : ℤ :=
  Int.fdiv q.num (q.den : ℤ)

/-- Python `round(x, 2)`.  CPython rounds the underlying binary float to the
nearest representable; modelled as rounding the rational to 2 decimal
places (half up).  No claim below depends on the behaviour at half-way
points. -/
def roundTo2 (q : ℚ) : ℚ :=
  (qfloor (q * 100 + 1/2) : ℚ) / 100

/-- Python `min(x, y)` where `x` may be NaN: `min(nan, y)` returns `nan`
(the comparison `y < nan` is false, so the first argument is kept). -/
def pyMin (a : Cell) (b : ℚ) : Cell :=
  match a with
  | none => none
  | some x => some (min x b)

/-! ## MAADXScorer components (`src/trend_scoring/ma_adx_scorer.py`)

Only the two components the claims are about are embedded:
`_score_ma_alignment` and `_score_price_position`.  Both return
(score, status-tag); the status tags mirror the `details['status']` strings
of the source. -/

/-- `MAADXScorer._score_ma_alignment(latest)`.

The source reads the four moving averages with `latest.get('sma_X', 0)`: a
column absent from the frame silently becomes the value `0` (and then passes
the `pd.isna` guard), while a present-but-NaN value is caught by the guard
and scores 0. -/
def scoreMAAlignment (f : Frame) (latest : Row) : ℚ × String :=
  let ma5 := rowGet f latest .sma_5 0
  let ma10 := rowGet f latest .sma_10 0
  let ma20 := rowGet f latest .sma_20 0
  let ma50 := rowGet f latest .sma_50 0
  let price := latest.close
  if ma5.isNone || ma10.isNone || ma20.isNone || ma50.isNone then
    (0, "no_data")
  else
    let alignmentCount : ℕ :=
      (if cellGT price ma5 then 1 else 0) +
      (if cellGT ma5 ma10 then 1 else 0) +
      (if cellGT ma10 ma20 then 1 else 0) +
      (if cellGT ma20 ma50 then 1 else 0)
    if alignmentCount = 4 then (100, "perfect_bullish")
    else if alignmentCount = 3 then (75, "strong_bullish")
    else if alignmentCount = 2 then (50, "moderate_bullish")
    else if alignmentCount = 1 then (25, "weak_bullish")
    else (0, "no_alignment")

/-- `MAADXScorer._score_price_position(df)`: position of the latest close in
the trailing 20-bar high/low range.  The division is reached only when
`len(recent_20) == 20` and `high_20 == low_20` is false. -/
def scorePricePosition (df : Frame) : ℚ × String :=
  let recent := lastN 20 df.rows
  if recent.length < 20 then (50, "insufficient_data")
  else
    let high20 := cellMax (recent.map (·.high))
    let low20 := cellMin (recent.map (·.low))
    let current := ((df.rows.getLastD emptyRow)).close
    if cellEq high20 low20 then (50, "flat")
    else
      let position := cellDiv (cellSub current low20) (cellSub high20 low20)
      if cellGE position (some (1/2)) && cellLE position (some (3/4)) then
        (100, "ideal_position")
      else if cellGT position (some (3/4)) && cellLE position (some (17/20)) then
        (80, "high_position")
      else if cellGE position (some (3/10)) && cellLT position (some (1/2)) then
        (60, "mid_position")
      else if cellGT position (some (17/20)) then (30, "too_high")
      else (20, "low_position")

/-! ## TrendFilter (`src/filters/trend_filter.py`)

The per-ticker loop body is embedded as `trendVerdict`: `none` models the
ticker landing in `passed`, `some tag` models `rejected[ticker] = reason`.
The tags are short stand-ins for the source's reason strings; no claim
depends on their text.  A per-ticker exception is caught and recorded as a
rejection; on this path the only raising operation is indexing an absent
`close` column. -/

structure TrendFilterCfg where
  min_20d_return : ℚ
  require_above_ma50 : Bool
  require_ma20_uptrend : Bool
deriving DecidableEq, Repr

/-- The 20-day-return gate: `return_20d < min_20d_return` rejects.  With a
NaN value on either side the float comparison is false and the gate passes. -/
def trendReturnRejects (cfg : TrendFilterCfg) (df : Frame) : Bool :=
  let current := (df.rows.getLastD emptyRow).close
  let p20 := (df.rows.getD (df.rows.length - 20) emptyRow).close
  cellLT (cellDiv (cellSub current p20) p20) (some cfg.min_20d_return)

/-- The MA50 gate: reject when the column is missing, the latest value is
NaN, or the close is not strictly above it. -/
def trendMa50Verdict (cfg : TrendFilterCfg) (df : Frame) : Option String :=
  if !cfg.require_above_ma50 then none
  else if !df.cols.contains Col.sma_50 then some "missing_ma50"
  else
    let latest := df.rows.getLastD emptyRow
    if latest.sma_50.isNone || cellLE latest.close latest.sma_50 then
      some "below_ma50"
    else none

/-- The MA20-uptrend gate: reject when the column is missing or any of the
last 5 values is NaN; otherwise reject unless the 5-bar slope is strictly
positive (`ma20_slope <= 0` rejects).  The slope division has no zero guard
in the source; a zero base yields a float ±inf/NaN, collapsed to `none` by
`cellDiv`, and `cellLE none (some 0) = false` then passes the gate exactly
as a NaN/+inf slope does. -/
def trendMa20Verdict (cfg : TrendFilterCfg) (df : Frame) : Option String :=
  if !cfg.require_ma20_uptrend then none
  else if !df.cols.contains Col.sma_20 then some "missing_ma20"
  else if df.rows.length < 25 then none
  else
    let recent := lastN 5 (df.rows.map (·.sma_20))
    if recent.any (·.isNone) then some "ma20_incomplete"
    else
      let ma20Now := recent.getLastD none
      let ma20Ago := recent.headD none
      let slope := cellDiv (cellSub ma20Now ma20Ago) ma20Ago
      if cellLE slope (some 0) then some "ma20_not_rising" else none

/-- `TrendFilter.filter`'s per-ticker body. -/
def trendVerdict (cfg : TrendFilterCfg) (df : Frame) : Option String :=
  if df.rows.length < 50 then some "insufficient_history"
  else if !df.cols.contains Col.close then some "processing_error"
  else if trendReturnRejects cfg df then some "return_too_low"
  else
    match trendMa50Verdict cfg df with
    | some r => some r
    | none => trendMa20Verdict cfg df

/-- The filter loop shared by `TrendFilter.filter` (and, shape-wise, the
other hard filters): each ticker of the universe goes to `passed` or to
`rejected` according to its verdict, in input order. -/
def runFilter (verdict : Frame → Option String) (data : List (String × Frame)) :
    List (String × Frame) × List (String × String) :=
  data.foldl
    (fun pr td =>
      match verdict td.2 with
      | none => (pr.1 ++ [td], pr.2)
      | some r => (pr.1, pr.2 ++ [(td.1, r)]))
    ([], [])

/-- `TrendFilter.filter`. -/
def trendFilterRun (cfg : TrendFilterCfg) (data : List (String × Frame)) :
    List (String × Frame) × List (String × String) :=
  runFilter (trendVerdict cfg) data

/-! ## WeeklyTrendFilter (`src/filters/weekly_trend_filter.py`)

The weekly series for a ticker is modelled as the `close` column the filter
reads from storage: `none` stands for any of "no DataStorage", "load
failed", "no data stored" (all of which make `_load_weekly_data` return
`None`).  A stored weekly frame lacking the `close` column would raise
inside `analyze_stock`; the per-ticker handler turns that into a pass, the
same outcome as the modelled `none`. -/

structure WeeklyCfg where
  enabled : Bool
  weekly_ma_period : ℕ
  slope_lookback_weeks : ℕ
  sideways_threshold : ℚ
deriving DecidableEq, Repr

/-- pandas `rolling(window=p).mean()` with the default `min_periods`: entry
`i` is the mean of entries `i-p+1 .. i`, NaN before the window is full or
when the window contains a NaN. -/
def rollingMean (p : ℕ) (xs : List Cell) : List Cell :=
  (List.range xs.length).map fun i =>
    if p ≤ i + 1 then
      let w := ((xs.drop (i + 1 - p)).take p).filterMap id
      if w.length = p then some (qmean w) else none
    else none

/-- `WeeklyTrendFilter._calculate_weekly_ma_slope`: (ma value, slope, trend).
The slope division is guarded in the source (`... if ma_before != 0 else 0`). -/
def calcWeeklyMaSlope (cfg : WeeklyCfg) (wk : List Cell) : Cell × Cell × String :=
  if wk.length < cfg.weekly_ma_period + cfg.slope_lookback_weeks then
    (none, none, "unknown")
  else
    let ma := rollingMean cfg.weekly_ma_period wk
    if ma.all (·.isNone) then (none, none, "unknown")
    else
      let recent := lastN (cfg.slope_lookback_weeks + 1) ma
      if recent.any (·.isNone) then (ma.getLastD none, none, "unknown")
      else
        match recent.getLastD none, recent.headD none with
        | some maNow, some maBefore =>
          let slope := if maBefore ≠ 0 then (maNow - maBefore) / maBefore else 0
          let trend :=
            if slope > cfg.sideways_threshold then "up"
            else if slope < -cfg.sideways_threshold then "down"
            else "sideways"
          (some maNow, some slope, trend)
        | _, _ => (none, none, "unknown")

/-- `WeeklyTrendFilter._get_daily_trend`: daily direction from the 5-bar
slope of `sma_20`, with a hard-coded ±0.5% sideways band and the same
guarded division. -/
def getDailyTrend (df : Frame) : String :=
  if df.rows.length < 25 then "unknown"
  else if !df.cols.contains Col.sma_20 then "unknown"
  else
    let recent := lastN 5 (df.rows.map (·.sma_20))
    if recent.any (·.isNone) then "unknown"
    else
      match recent.getLastD none, recent.headD none with
      | some ma20Now, some ma20Ago =>
        let slope := if ma20Ago ≠ 0 then (ma20Now - ma20Ago) / ma20Ago else 0
        if slope > 1/200 then "up"
        else if slope < -(1/200) then "down"
        else "sideways"
      | _, _ => "unknown"

/-- `WeeklyTrendFilter._check_alignment`: (is_aligned, rejection reason).
Rejects only on a direct daily/weekly conflict; unknown on either side, or
a sideways side, passes. -/
def checkAlignment (daily weekly : String) : Bool × Option String :=
  if weekly = "unknown" then (true, none)
  else if daily = "unknown" then (true, none)
  else if daily = "up" && weekly = "down" then
    (false, some "conflict_daily_up_weekly_down")
  else if daily = "down" && weekly = "up" then
    (false, some "conflict_daily_down_weekly_up")
  else (true, none)

/-- `WeeklyTrendFilter.analyze_stock`, reduced to the alignment outcome the
filter loop consumes.  Missing weekly data short-circuits to an aligned
state without running the alignment check. -/
def analyzeAlignment (cfg : WeeklyCfg) (wk : Option (List Cell)) (df : Frame) :
    Bool × Option String :=
  let daily := getDailyTrend df
  match wk with
  | none => (true, none)
  | some w =>
    let s := calcWeeklyMaSlope cfg w
    checkAlignment daily s.2.2

/-- `WeeklyTrendFilter.filter`.

The rejection branch of the source first records
`rejected[ticker] = reason` and then logs with the f-string
`f"... {state.weekly_ma20_slope:.4f if state.weekly_ma20_slope else 'N/A'}"`.
The text after the colon is a literal (not nested) format spec, so
`float.__format__` raises ValueError on it; f-strings are evaluated eagerly
regardless of the log level, so every rejection raises, and the per-ticker
`except` handler then ALSO appends the ticker to `passed`.  The embedding
reproduces this: a conflicted ticker ends up in both returned mappings. -/
def weeklyFilterRun (cfg : WeeklyCfg) (weekly : String → Option (List Cell))
    (data : List (String × Frame)) :
    List (String × Frame) × List (String × String) :=
  if !cfg.enabled then (data, [])
  else
    data.foldl
      (fun pr td =>
        match analyzeAlignment cfg (weekly td.1) td.2 with
        | (true, _) => (pr.1 ++ [td], pr.2)
        | (false, r) =>
          (pr.1 ++ [td], pr.2 ++ [(td.1, r.getD "misaligned")]))
      ([], [])

/-! ## ScoringEngine (`src/scoring_engine.py`) -/

/-- One element of a strategy's `scan` result list:
`{'ticker', 'signal', 'price', 'details'}`. -/
structure StratResult where
  ticker : String
  signal : String
  price : ℚ
  details : List (String × ℚ)
deriving DecidableEq, Repr

/-- One grouped signal as built by `_group_signals_by_ticker`:
`{'strategy', 'signal', 'price', 'details'}`. -/
structure Signal where
  strategy : String
  signal : String
  price : ℚ
  details : List (String × ℚ)
deriving DecidableEq, Repr

/-- Append a signal to the ticker's bucket of the insertion-ordered dict,
creating the bucket at the end when the ticker is new. -/
def insertSignal (m : List (String × List Signal)) (t : String) (s : Signal) :
    List (String × List Signal) :=
  if m.any (·.1 = t) then
    m.map fun kv => if kv.1 = t then (kv.1, kv.2 ++ [s]) else kv
  else m ++ [(t, [s])]

/-- The sequence of (strategy name, result) pairs visited by the double loop
of `_group_signals_by_ticker`, in iteration order. -/
def flatPairs (strategyResults : List (String × List StratResult)) :
    List (String × StratResult) :=
  strategyResults.flatMap fun nr => nr.2.map fun r => (nr.1, r)

/-- The grouped-signal record appended for one (strategy name, result)
pair: `{'strategy': name, 'signal': ..., 'price': ..., 'details': ...}`. -/
def mkSignal (p : String × StratResult) : Signal :=
  ⟨p.1, p.2.signal, p.2.price, p.2.details⟩

/-- `ScoringEngine._group_signals_by_ticker`: the double loop over
`strategy_results` (a dict of per-strategy result lists), grouping the
signals into an insertion-ordered dict keyed by ticker. -/
def groupSignalsByTicker (strategyResults : List (String × List StratResult)) :
    List (String × List Signal) :=
  (flatPairs strategyResults).foldl
    (fun m p => insertSignal m p.2.ticker (mkSignal p)) []

/-- Specification-side view of a ticker's bucket: the signals of all pairs
carrying that ticker, in visit order (proof apparatus, not source code). -/
def sigsFor (ps : List (String × StratResult)) (t : String) : List Signal :=
  (ps.filter fun p => p.2.ticker = t).map mkSignal

/-- All signals filed under a key in an ordered dict (proof apparatus). -/
def grpVal (m : List (String × List Signal)) (t : String) : List Signal :=
  (m.filter fun kv => kv.1 = t).flatMap Prod.snd

/-- The hard-coded per-signal-type bonus weights of `_score_signals`. -/
def signalTypeWeights : List (String × ℚ) :=
  [("均线金叉", 30), ("价格突破", 35), ("成交量放大", 25),
   ("RSI超卖反弹", 20), ("RSI超买回落", 10)]

/-- `ScoringEngine._score_signals`: base 50 plus per-signal-type bonuses
(default 15 for unrecognized types), bonus capped at 50, total at 100. -/
def scoreSignals (signals : List Signal) : ℚ :=
  if signals.isEmpty then 0
  else
    let bonus := (signals.map fun s => (signalTypeWeights.lookup s.signal).getD 15).sum
    min (50 + min bonus 50) 100

/-- `ScoringEngine._score_multi_strategy`.  NOTE: the source counts
`len(signals)` — the number of grouped signals for the ticker — not the
number of distinct strategy names among them. -/
def scoreMultiStrategy (signals : List Signal) : ℚ :=
  let numStrategies := signals.length
  if 3 ≤ numStrategies then 100
  else if numStrategies = 2 then 70
  else if numStrategies = 1 then 30
  else 0

/-- The engine's weights dict. -/
abbrev Weights := List (String × ℚ)

/-- The default weights used when the config has no `weights` key at all. -/
def defaultWeights : Weights :=
  [("liquidity", 1/5), ("trend", 3/10), ("signal", 2/5), ("multi_strategy", 1/10)]

/-- The scoring slice of the configuration passed to `ScoringEngine`;
`none` models a key absent from the config dict. -/
structure ScoringCfg where
  weights : Option Weights
  output_count : Option ℕ
deriving DecidableEq, Repr

structure ScoringEngine where
  weights : Weights
  output_count : ℕ
deriving DecidableEq, Repr

/-- `ScoringEngine.__init__`: stores `config.get('weights', default)` and
`config.get('output_count', 20)`.  No validation of the weight keys happens
here; a partial `weights` dict is stored as-is. -/
def scoringEngineInit (cfg : ScoringCfg) : ScoringEngine :=
  ⟨cfg.weights.getD defaultWeights, cfg.output_count.getD 20⟩

/-- `self.weights[k]`: Python dict indexing, `KeyError(k)` when absent. -/
def wget (w : Weights) (k : String) : Except String ℚ :=
  match w.lookup k with
  | some v => .ok v
  | none => .error k

/-- One ranked record as assembled by `_calculate_final_score` (and later
mutated by `score_all` with `rank`/`confidence`).  The nested
`final_score.components` entries are flattened into `comp_*` fields; the
trend dict is carried through as its `total`, the only part the engine
reads. -/
structure RankedRec where
  ticker : String
  timestamp : String
  price : ℚ
  liquidity_score : ℚ
  trend_total : ℚ
  strategy_signals : List Signal
  signal_score : ℚ
  multi_strategy_score : ℚ
  total : ℚ
  comp_liquidity : ℚ
  comp_trend : ℚ
  comp_signal : ℚ
  comp_multi : ℚ
  rank : Option ℕ
  confidence : Option String
deriving DecidableEq, Repr

/-- The body of `_calculate_final_score` once the four weights have been
read.  `timestamp` is `datetime.now().isoformat()`: the ambient wall clock,
threaded through as the explicit parameter `now`. -/
def calcScoreCore (wl wt ws wm : ℚ) (ticker : String) (liq trendTotal : ℚ)
    (signals : List Signal) (now : String) : RankedRec :=
  let signalScore := scoreSignals signals
  let multiScore := scoreMultiStrategy signals
  let finalTotal := liq * wl + trendTotal * wt + signalScore * ws + multiScore * wm
  { ticker := ticker
    timestamp := now
    price := match signals with | [] => 0 | s :: _ => s.price
    liquidity_score := roundTo2 liq
    trend_total := trendTotal
    strategy_signals := signals
    signal_score := roundTo2 signalScore
    multi_strategy_score := roundTo2 multiScore
    total := roundTo2 finalTotal
    comp_liquidity := roundTo2 (liq * wl)
    comp_trend := roundTo2 (trendTotal * wt)
    comp_signal := roundTo2 (signalScore * ws)
    comp_multi := roundTo2 (multiScore * wm)
    rank := none
    confidence := none }

/-- `ScoringEngine._calculate_final_score`: the weighted-total expression
reads `self.weights['liquidity']`, `['trend']`, `['signal']`,
`['multi_strategy']` in that order, so a missing key raises `KeyError` here,
per ticker — nothing was checked at construction time. -/
def calculateFinalScore (w : Weights) (ticker : String) (liq trendTotal : ℚ)
    (signals : List Signal) (now : String) : Except String RankedRec := do
  let wl ← wget w "liquidity"
  let wt ← wget w "trend"
  let ws ← wget w "signal"
  let wm ← wget w "multi_strategy"
  pure (calcScoreCore wl wt ws wm ticker liq trendTotal signals now)

/-- The `for ticker in ticker_signals.keys()` loop of `score_all`, building
`all_scores` in grouping order: a ticker lacking a liquidity or a trend
score is skipped (`continue`), otherwise its record is computed — a
`KeyError` escaping `_calculate_final_score` aborts the loop — and appended
to the accumulator. -/
def scoredListAux (w : Weights) (liq trend : List (String × ℚ)) (now : String) :
    List (String × List Signal) → List RankedRec → Except String (List RankedRec)
  | [], acc => .ok acc
  | g :: gs, acc =>
    match liq.lookup g.1, trend.lookup g.1 with
    | some lq, some tt =>
      match calculateFinalScore w g.1 lq tt g.2 now with
      | .error e => .error e
      | .ok r => scoredListAux w liq trend now gs (acc ++ [r])
    | _, _ => scoredListAux w liq trend now gs acc

/-- The `all_scores` list of `score_all` (or the propagated `KeyError`). -/
def scoredList (w : Weights) (liq trend : List (String × ℚ))
    (groups : List (String × List Signal)) (now : String) :
    Except String (List RankedRec) :=
  scoredListAux w liq trend now groups []

/-- Insert a record into a descending-sorted list, after every record whose
total is ≥ its own (so that records with equal totals keep their original
relative order). -/
def insertScored (r : RankedRec) : List RankedRec → List RankedRec
  | [] => [r]
  | y :: ys => if y.total < r.total then r :: y :: ys else y :: insertScored r ys

/-- `all_scores.sort(key=lambda x: x['final_score']['total'], reverse=True)`:
CPython's sort is stable, and with `reverse=True` it still keeps equal keys
in their original order.  Any stable sort under the same key is
extensionally that function; it is modelled by a stable insertion sort,
which is structurally recursive and therefore computes. -/
def sortScoredDesc (l : List RankedRec) : List RankedRec :=
  l.foldl (fun acc r => insertScored r acc) []

/-- `ScoringEngine._calculate_confidence`. -/
def confidenceOf (r : RankedRec) : String :=
  if decide (80 ≤ r.total) && decide (70 ≤ r.trend_total)
      && decide (2 ≤ r.strategy_signals.length) then "high"
  else if decide (65 ≤ r.total) && decide (50 ≤ r.trend_total) then "medium"
  else "low"

/-- `for rank, item in enumerate(top_n, 1): item['final_score']['rank'] = rank;
item['final_score']['confidence'] = ...`. -/
def assignRanks (startRank : ℕ) : List RankedRec → List RankedRec
  | [] => []
  | r :: rs =>
    { r with rank := some startRank, confidence := some (confidenceOf r) } ::
      assignRanks (startRank + 1) rs

/-- `ScoringEngine.score_all`: group, score, sort descending by total,
truncate to `output_count`, assign ranks and confidence tiers. -/
def scoreAll (eng : ScoringEngine) (liq trend : List (String × ℚ))
    (strategyResults : List (String × List StratResult)) (now : String) :
    Except String (List RankedRec) := do
  let groups := groupSignalsByTicker strategyResults
  let allScores ← scoredList eng.weights liq trend groups now
  let sorted := sortScoredDesc allScores
  let topN := sorted.take eng.output_count
  pure (assignRanks 1 topN)

/-- The number of grouped tickers that have both a liquidity and a trend
score — exactly the tickers `score_all` scores (proof apparatus). -/
def eligibleCount (liq trend : List (String × ℚ))
    (strategyResults : List (String × List StratResult)) : ℕ :=
  ((groupSignalsByTicker strategyResults).filter
    (fun g => (liq.lookup g.1).isSome && (trend.lookup g.1).isSome)).length

/-- Blank out the wall-clock field of a record (proof apparatus for the
determinism-modulo-timestamp statement). -/
def eraseTimestamp (r : RankedRec) : RankedRec :=
  { r with timestamp := "" }

/-! ## Liquidity scorer (`ScoringEngine.calculate_liquidity_score`) -/

structure LiqCfg where
  volume_period : ℕ
  excellent_threshold : ℚ
  min_avg_dollar_volume : ℚ
deriving DecidableEq, Repr

/-- `ScoringEngine.calculate_liquidity_score`.  The body is wrapped in
`try/except → 50`; with a positive `volume_period` the only raising
operations are the `volume`/`close` column accesses, modelled by the
explicit columns check.  All arithmetic is numpy float arithmetic and never
raises; a NaN result propagates as `none` (Python `min(nan, 100)` is `nan`,
see `pyMin`). -/
def calcLiquidityScore (df : Frame) (cfg : LiqCfg) : Cell :=
  let recent := lastN cfg.volume_period df.rows
  if recent.length < cfg.volume_period then some 50
  else if !df.cols.contains Col.volume || !df.cols.contains Col.close then some 50
  else
    let avgVolume := cellMean (recent.map (·.volume))
    let avgPrice := cellMean (recent.map (·.close))
    let avgDollarVolume := cellMul avgVolume avgPrice
    let score :=
      if cellGE avgDollarVolume (some cfg.excellent_threshold) then some 100
      else if cellGE avgDollarVolume (some cfg.min_avg_dollar_volume) then
        cellAdd (some 60)
          (cellMul (some 40)
            (cellDiv (cellSub avgDollarVolume (some cfg.min_avg_dollar_volume))
              (some (cfg.excellent_threshold - cfg.min_avg_dollar_volume))))
      else
        cellMul (some 50) (cellDiv avgDollarVolume (some cfg.min_avg_dollar_volume))
    pyMin score 100

/-! ## Pipeline wiring (`main.py`, `StockScreener.run_screening`)

The three hard filters and the strategy scans are taken as parameters of the
shapes the pipeline uses (`filter: universe → (passed, rejected)`,
`scan: universe → results`); the theorems about the wiring hypothesise only
what every concrete filter/scan of the repository satisfies (filters pass
subsets of their input, scans only emit tickers of the scanned universe). -/

abbrev FilterFn := List (String × Frame) → List (String × Frame) × List (String × String)

abbrev ScanFn := List (String × Frame) → List StratResult

/-- `StockScreener.run_screening`, from the already indicator-augmented
universe to the final ranked list: chain the three hard filters, compute
trend and liquidity scores for the survivors, run every strategy scan on the
survivors, then hand everything to `ScoringEngine.score_all`. -/
def runScreening (dq liqF tr : FilterFn) (scans : List (String × ScanFn))
    (liqScoreOf trendTotalOf : Frame → ℚ) (eng : ScoringEngine) (now : String)
    (data : List (String × Frame)) : Except String (List RankedRec) :=
  let d1 := (dq data).1
  let d2 := (liqF d1).1
  let d3 := (tr d2).1
  if d3.isEmpty then .ok []
  else
    let trendScores := d3.map fun td => (td.1, trendTotalOf td.2)
    let liqScores := d3.map fun td => (td.1, liqScoreOf td.2)
    let strategyResults := scans.map fun s => (s.1, s.2 d3)
    scoreAll eng liqScores trendScores strategyResults now

/-! ## Helper lemmas -/

theorem lastN_length {α : Type} (n : ℕ) (l : List α) :
    (lastN n l).length = min l.length n := by
  simp [lastN]
  omega

theorem mem_of_mem_lastN {α : Type} {n : ℕ} {l : List α} {x : α}
    (h : x ∈ lastN n l) : x ∈ l :=
  List.drop_subset _ _ h

theorem filterMap_id_length_of_isSome {l : List Cell}
    (h : ∀ c ∈ l, c.isSome) : (l.filterMap id).length = l.length := by
  induction l with
  | nil => rfl
  | cons c cs ih =>
    rcases c with _ | v
    · exact absurd (h none (by simp)) (by simp)
    · simpa using ih fun c hc => h c (by simp [hc])

theorem cellMean_isSome {l : List Cell} (hne : l ≠ []) (h : ∀ c ∈ l, c.isSome) :
    ∃ x, cellMean l = some x := by
  have hL := filterMap_id_length_of_isSome h
  cases hfm : l.filterMap id with
  | nil =>
    rw [hfm] at hL
    simp at hL
    exact absurd (List.length_eq_zero.mp hL.symm) hne
  | cons a as => exact ⟨qmean (a :: as), by simp [cellMean, hfm]⟩

theorem pyMin_some_le (s : Cell) (x : ℚ) (h : s = some x) :
    ∃ q, pyMin s 100 = some q ∧ q ≤ 100 :=
  ⟨min x 100, by simp [pyMin, h], min_le_right _ _⟩

theorem eq_of_mem_of_nodup_keys {α β : Type} [DecidableEq α] {l : List (α × β)}
    (h : (l.map Prod.fst).Nodup) {t : α} {a b : β}
    (ha : (t, a) ∈ l) (hb : (t, b) ∈ l) : a = b := by
  induction l with
  | nil => cases ha
  | cons x xs ih =>
    simp only [List.map_cons, List.nodup_cons] at h
    rcases List.mem_cons.mp ha with ha' | ha' <;>
      rcases List.mem_cons.mp hb with hb' | hb'
    · exact congrArg Prod.snd (ha'.trans hb'.symm)
    · exfalso
      exact h.1 (by simpa [← ha'] using List.mem_map_of_mem Prod.fst hb')
    · exfalso
      exact h.1 (by simpa [← hb'] using List.mem_map_of_mem Prod.fst ha')
    · exact ih h.2 ha' hb'

theorem runFilter_eq (v : Frame → Option String) (data : List (String × Frame)) :
    runFilter v data =
      (data.filter (fun td => (v td.2).isNone),
       data.filterMap (fun td => (v td.2).map (fun r => (td.1, r)))) := by
  suffices h : ∀ p q, data.foldl
      (fun pr td =>
        match v td.2 with
        | none => (pr.1 ++ [td], pr.2)
        | some r => (pr.1, pr.2 ++ [(td.1, r)])) (p, q) =
      (p ++ data.filter (fun td => (v td.2).isNone),
       q ++ data.filterMap (fun td => (v td.2).map (fun r => (td.1, r)))) by
    simpa [runFilter] using h [] []
  induction data with
  | nil => simp
  | cons td tds ih =>
    intro p q
    cases hv : v td.2 with
    | none => simp [hv, ih]
    | some r => simp [hv, ih]

theorem runFilter_mem (v : Frame → Option String) (data : List (String × Frame))
    (t : String) (df : Frame) (hnd : (data.map Prod.fst).Nodup)
    (hmem : (t, df) ∈ data) :
    (t ∈ (runFilter v data).1.map Prod.fst ↔ v df = none) ∧
    (t ∈ (runFilter v data).2.map Prod.fst ↔ v df ≠ none) := by
  rw [runFilter_eq]
  constructor
  · simp only [List.mem_map, List.mem_filter]
    constructor
    · rintro ⟨⟨t', df'⟩, ⟨hmem', hsome⟩, rfl⟩
      have : df' = df := eq_of_mem_of_nodup_keys hnd hmem' hmem
      subst this
      simpa using hsome
    · intro hv
      exact ⟨(t, df), ⟨hmem, by simp [hv]⟩, rfl⟩
  · simp only [List.mem_map, List.mem_filterMap]
    constructor
    · rintro ⟨⟨t', r⟩, ⟨⟨t'', df'⟩, hmem', hmap⟩, rfl⟩
      rcases hv : v df' with _ | r'
      · rw [hv] at hmap; simp at hmap
      · rw [hv] at hmap
        simp only [Option.map_some', Option.some.injEq, Prod.mk.injEq] at hmap
        obtain ⟨h1, h2⟩ := hmap
        subst h1
        have : df' = df := eq_of_mem_of_nodup_keys hnd hmem' hmem
        subst this
        simp [hv]
    · intro hv
      rcases hv' : v df with _ | r
      · exact absurd hv' hv
      · exact ⟨(t, r), ⟨(t, df), hmem, by simp [hv']⟩, rfl⟩

/-! ## C10 — liquidity scorer totality and bound -/

/-- C10 counterexample: on a series long enough for the trailing window but
whose window `volume` values are all NaN, `recent['volume'].mean()` is NaN
(pandas skipna mean of an all-NaN series — no exception is raised), both
threshold comparisons with NaN are false, `score` becomes
`50 * (nan / min_threshold)` and `min(nan, 100)` returns NaN (the
comparison `100 < nan` is false, so `min` returns its first argument): the
function returns NaN, which is neither the neutral 50 nor a score of at
most 100, refuting the claim for every input series and configuration. -/
theorem c10_all_nan_window_scores_nan :
    calcLiquidityScore
        (Frame.mk [Col.close, Col.volume]
          [{ emptyRow with close := some 2, volume := none }]) ⟨1, 10, 1⟩ = none := by
  decide

/-- C10 (amended): for every series whose rows carry defined (non-NaN)
volume and close values, and every configuration with a positive
`volume_period` and positive `min_avg_dollar_volume`, the liquidity scorer
returns a defined score of at most 100 (under these hypotheses it never
raises — the `try/except` wrapper returns the neutral 50 on the only
raising operations, the column accesses, and every division it performs has
a non-zero denominator), and it returns exactly the neutral 50 when fewer
than `volume_period` trailing rows exist.  Without the definedness
hypothesis the bound fails: an all-NaN trailing window makes the function
return NaN (see the counterexample). -/
theorem c10_liquidity_score_bounded (df : Frame) (cfg : LiqCfg)
    (hp : 0 < cfg.volume_period)
    (hm : 0 < cfg.min_avg_dollar_volume)
    (hdef : ∀ r ∈ df.rows, r.volume.isSome ∧ r.close.isSome) :
    (∃ q : ℚ, calcLiquidityScore df cfg = some q ∧ q ≤ 100) ∧
    (df.rows.length < cfg.volume_period → calcLiquidityScore df cfg = some 50) := by
  have hlenN := lastN_length cfg.volume_period df.rows
  refine ⟨?_, fun hl => ?_⟩
  · by_cases hshort : (lastN cfg.volume_period df.rows).length < cfg.volume_period
    · exact ⟨50, by simp [calcLiquidityScore, hshort], by norm_num⟩
    · by_cases hvc : Col.volume ∈ df.cols
      case neg => exact ⟨50, by simp [calcLiquidityScore, hshort, hvc], by norm_num⟩
      by_cases hcc : Col.close ∈ df.cols
      case neg => exact ⟨50, by simp [calcLiquidityScore, hshort, hvc, hcc], by norm_num⟩
      · have hvol : ∀ c ∈ (lastN cfg.volume_period df.rows).map (·.volume), c.isSome := by
          intro c hc
          obtain ⟨r, hr, rfl⟩ := List.mem_map.mp hc
          exact (hdef r (mem_of_mem_lastN hr)).1
        have hclo : ∀ c ∈ (lastN cfg.volume_period df.rows).map (·.close), c.isSome := by
          intro c hc
          obtain ⟨r, hr, rfl⟩ := List.mem_map.mp hc
          exact (hdef r (mem_of_mem_lastN hr)).2
        have hne : (lastN cfg.volume_period df.rows).map (·.volume) ≠ [] := by
          have : 0 < (lastN cfg.volume_period df.rows).length := by omega
          simp only [ne_eq, List.map_eq_nil_iff]
          exact fun h => by simp [h] at this
        have hne' : (lastN cfg.volume_period df.rows).map (·.close) ≠ [] := by
          have : 0 < (lastN cfg.volume_period df.rows).length := by omega
          simp only [ne_eq, List.map_eq_nil_iff]
          exact fun h => by simp [h] at this
        obtain ⟨av, hav⟩ := cellMean_isSome hne hvol
        obtain ⟨ap, hap⟩ := cellMean_isSome hne' hclo
        have key : calcLiquidityScore df cfg =
            pyMin (if cellGE (some (av * ap)) (some cfg.excellent_threshold)
                then some 100
              else if cellGE (some (av * ap)) (some cfg.min_avg_dollar_volume) then
                cellAdd (some 60) (cellMul (some 40)
                  (cellDiv (cellSub (some (av * ap)) (some cfg.min_avg_dollar_volume))
                    (some (cfg.excellent_threshold - cfg.min_avg_dollar_volume))))
              else cellMul (some 50)
                  (cellDiv (some (av * ap)) (some cfg.min_avg_dollar_volume))) 100 := by
          simp [calcLiquidityScore, hshort, hvc, hcc, hav, hap, cellMul]
        rw [key]
        by_cases b1 : cellGE (some (av * ap)) (some cfg.excellent_threshold) = true
        · exact pyMin_some_le _ 100 (by simp [b1])
        · by_cases b2 : cellGE (some (av * ap)) (some cfg.min_avg_dollar_volume) = true
          · have hlt : av * ap < cfg.excellent_threshold := by
              simpa [cellGE, not_le] using b1
            have hge : cfg.min_avg_dollar_volume ≤ av * ap := by
              simpa [cellGE] using b2
            have hd : cfg.excellent_threshold - cfg.min_avg_dollar_volume ≠ 0 :=
              sub_ne_zero.mpr (by linarith)
            exact pyMin_some_le _
              (60 + 40 * ((av * ap - cfg.min_avg_dollar_volume) /
                (cfg.excellent_threshold - cfg.min_avg_dollar_volume)))
              (by simp [b1, b2, cellDiv, cellSub, cellAdd, cellMul, hd])
          · exact pyMin_some_le _
              (50 * ((av * ap) / cfg.min_avg_dollar_volume))
              (by simp [b1, b2, cellDiv, cellMul, hm.ne'])
  · have : (lastN cfg.volume_period df.rows).length < cfg.volume_period := by
      rw [hlenN]; omega
    simp [calcLiquidityScore, this]

/-- C10 witness: the theorem applied to a 1-row series (volume 3, close 2)
with volume_period 1, min threshold 1 and excellent threshold 10. -/
theorem c10_liquidity_score_bounded_witness :
    (∃ q : ℚ, calcLiquidityScore
        (Frame.mk [Col.close, Col.volume]
          [{ emptyRow with close := some 2, volume := some 3 }]) ⟨1, 10, 1⟩
        = some q ∧ q ≤ 100) ∧
    ((Frame.mk [Col.close, Col.volume]
        [{ emptyRow with close := some 2, volume := some 3 }]).rows.length < 1 →
      calcLiquidityScore
        (Frame.mk [Col.close, Col.volume]
          [{ emptyRow with close := some 2, volume := some 3 }]) ⟨1, 10, 1⟩ = some 50) :=
  c10_liquidity_score_bounded _ _ (by decide) (by norm_num) (by decide)

/-! ## C6 — trend filter MA20-uptrend gate -/

/-- The part of `trendVerdict` that runs before the MA20 gate: the ticker
has reached the MA20-uptrend check iff none of these rejected it. -/
def reachesMa20Check (cfg : TrendFilterCfg) (df : Frame) : Prop :=
  50 ≤ df.rows.length ∧ df.cols.contains Col.close = true ∧
    trendReturnRejects cfg df = false ∧ trendMa50Verdict cfg df = none

/-- C6: with `require_ma20_uptrend` enabled, a ticker of the universe that
reaches the MA20-uptrend check passes the Trend Filter iff the 5-bar slope
of `sma_20` — latest value versus the value 5 bars earlier, as a fractional
change — is strictly positive (for well-defined slope data with a positive
base); and when the `sma_20` column is missing or any of the last 5 values
is undefined, the ticker is rejected. -/
theorem c6_ma20_uptrend_gate (cfg : TrendFilterCfg) (data : List (String × Frame))
    (t : String) (df : Frame)
    (hnd : (data.map Prod.fst).Nodup) (hmem : (t, df) ∈ data)
    (hreq : cfg.require_ma20_uptrend = true)
    (hreach : reachesMa20Check cfg df) :
    (∀ mnow mago : ℚ,
      df.cols.contains Col.sma_20 = true →
      (lastN 5 (df.rows.map (·.sma_20))).all (·.isSome) = true →
      (lastN 5 (df.rows.map (·.sma_20))).getLastD none = some mnow →
      (lastN 5 (df.rows.map (·.sma_20))).headD none = some mago →
      0 < mago →
      (t ∈ (trendFilterRun cfg data).1.map Prod.fst ↔ 0 < (mnow - mago) / mago)) ∧
    ((df.cols.contains Col.sma_20 = false ∨
        (lastN 5 (df.rows.map (·.sma_20))).any (·.isNone) = true) →
      t ∈ (trendFilterRun cfg data).2.map Prod.fst) := by
  obtain ⟨h50, hclose, hret, hma50⟩ := hreach
  have hclosem : Col.close ∈ df.cols := by simpa using hclose
  have hlen : ¬(df.rows.length < 50) := by omega
  have hlen25 : ¬(df.rows.length < 25) := by omega
  have hmem' := runFilter_mem (trendVerdict cfg) data t df hnd hmem
  have hrun : trendFilterRun cfg data = runFilter (trendVerdict cfg) data := rfl
  constructor
  · intro mnow mago hcol hall hlast hhead hpos
    have hcolm : Col.sma_20 ∈ df.cols := by simpa using hcol
    have hnone : none ∉ lastN 5 (df.rows.map (·.sma_20)) := by
      intro hmm
      have := List.all_eq_true.mp hall _ hmm
      simp at this
    have hv : trendVerdict cfg df =
        (if cellLE (cellDiv (cellSub (some mnow) (some mago)) (some mago)) (some 0)
          then some "ma20_not_rising" else none) := by
      rw [List.getLastD_eq_getLast?] at hlast
      rw [List.headD_eq_head?] at hhead
      simp [trendVerdict, trendMa20Verdict, hreq, hlen, hlen25, hma50, hclosem,
        hcolm, hret, hnone, hlast, hhead]
    rw [hrun, (hmem'.1 : _ ↔ trendVerdict cfg df = none), hv]
    have hdiv : cellDiv (cellSub (some mnow) (some mago)) (some mago)
        = some ((mnow - mago) / mago) := by
      simp [cellDiv, cellSub, hpos.ne']
    rw [hdiv]
    by_cases hgt : 0 < (mnow - mago) / mago
    · simp [cellLE, not_le.mpr hgt, hgt]
    · simp [cellLE, not_lt.mp hgt, hgt]
  · intro hbad
    rw [hrun, hmem'.2]
    rcases hbad with hcol | hany
    · have hcolm : Col.sma_20 ∉ df.cols := by simpa using hcol
      simp [trendVerdict, hlen, hclosem, hret, hma50, trendMa20Verdict, hreq, hcolm]
    · obtain ⟨c, hc, hcn⟩ := List.any_eq_true.mp hany
      have hnone : none ∈ lastN 5 (df.rows.map (·.sma_20)) := by
        rwa [Option.isNone_iff_eq_none.mp hcn] at hc
      by_cases hcolm : Col.sma_20 ∈ df.cols
      · simp [trendVerdict, hlen, hclosem, hret, hma50, trendMa20Verdict, hreq,
          hcolm, hlen25, hnone]
      · simp [trendVerdict, hlen, hclosem, hret, hma50, trendMa20Verdict, hreq, hcolm]

set_option maxRecDepth 8000 in
/-- C6 witness: the gate applied to a 50-row universe member with flat
closes (20-day return 0, which passes a 0 threshold), `require_above_ma50`
disabled, and sma_20 rising from 1 to 2 over the last 5 bars: the ticker
passes the Trend Filter. -/
theorem c6_ma20_uptrend_gate_witness :
    "T" ∈ (trendFilterRun ⟨0, false, true⟩
        [("T", Frame.mk [Col.close, Col.sma_20]
          (List.replicate 45 { emptyRow with close := some 1, sma_20 := some 1 } ++
            [{ emptyRow with close := some 1, sma_20 := some 1 },
             { emptyRow with close := some 1, sma_20 := some 1 },
             { emptyRow with close := some 1, sma_20 := some 1 },
             { emptyRow with close := some 1, sma_20 := some 1 },
             { emptyRow with close := some 1, sma_20 := some 2 }]))]).1.map Prod.fst :=
  ((c6_ma20_uptrend_gate ⟨0, false, true⟩
      [("T", Frame.mk [Col.close, Col.sma_20]
        (List.replicate 45 { emptyRow with close := some 1, sma_20 := some 1 } ++
          [{ emptyRow with close := some 1, sma_20 := some 1 },
           { emptyRow with close := some 1, sma_20 := some 1 },
           { emptyRow with close := some 1, sma_20 := some 1 },
           { emptyRow with close := some 1, sma_20 := some 1 },
           { emptyRow with close := some 1, sma_20 := some 2 }]))]
      "T"
      (Frame.mk [Col.close, Col.sma_20]
        (List.replicate 45 { emptyRow with close := some 1, sma_20 := some 1 } ++
          [{ emptyRow with close := some 1, sma_20 := some 1 },
           { emptyRow with close := some 1, sma_20 := some 1 },
           { emptyRow with close := some 1, sma_20 := some 1 },
           { emptyRow with close := some 1, sma_20 := some 1 },
           { emptyRow with close := some 1, sma_20 := some 2 }]))
      (by decide) (by simp) (by decide)
      (by exact ⟨by decide, by decide, by decide, by decide⟩)).1 2 1
    (by decide) (by decide) (by decide) (by decide) (by norm_num)).mpr (by norm_num)

/-! ## C5 — MA-alignment component and missing data -/

/-- C5 counterexample: the claim says a series whose latest row is missing
`sma_5`..`sma_50` because the columns are absent from the series entirely
scores 0.  On a one-row series with only a `close` column (close = 10) the
code scores 25, because `latest.get('sma_X', 0)` silently defaults every
absent column to the value 0 and `close > 0` then counts as one satisfied
alignment condition. -/
theorem c5_absent_columns_score_25 :
    Col.sma_5 ∉ (Frame.mk [Col.close] [{ emptyRow with close := some 10 }]).cols ∧
    (scoreMAAlignment (Frame.mk [Col.close] [{ emptyRow with close := some 10 }])
        { emptyRow with close := some 10 }).1 = 25 := by
  decide

/-- C5 (amended): when all four SMA columns are present in the series, the
MA-alignment score is 0 if any of their latest values is undefined (NaN),
and otherwise equals 25 × (number of satisfied alignment conditions among
close>sma5, sma5>sma10, sma10>sma20, sma20>sma50), i.e. the 0/25/50/75/100
ladder; but a column absent from the series entirely is silently defaulted
to the value 0 rather than scoring 0 — e.g. a row with a positive close and
all four SMA columns absent scores 25. -/
theorem c5_ma_alignment_amended :
    (∀ (f : Frame) (r : Row),
      Col.sma_5 ∈ f.cols → Col.sma_10 ∈ f.cols → Col.sma_20 ∈ f.cols →
      Col.sma_50 ∈ f.cols →
      ((r.sma_5.isNone ∨ r.sma_10.isNone ∨ r.sma_20.isNone ∨ r.sma_50.isNone) →
        (scoreMAAlignment f r).1 = 0) ∧
      (∀ v5 v10 v20 v50 : ℚ, r.sma_5 = some v5 → r.sma_10 = some v10 →
        r.sma_20 = some v20 → r.sma_50 = some v50 →
        (scoreMAAlignment f r).1 = 25 *
          (((if cellGT r.close (some v5) then 1 else 0) +
            (if v5 > v10 then 1 else 0) + (if v10 > v20 then 1 else 0) +
            (if v20 > v50 then 1 else 0) : ℕ) : ℚ))) ∧
    (∀ (f : Frame) (r : Row) (c : ℚ),
      Col.sma_5 ∉ f.cols → Col.sma_10 ∉ f.cols → Col.sma_20 ∉ f.cols →
      Col.sma_50 ∉ f.cols → r.close = some c → 0 < c →
      (scoreMAAlignment f r).1 = 25) := by
  constructor
  · intro f r h5 h10 h20 h50
    constructor
    · intro hnan
      rcases hnan with h | h | h | h <;>
        simp [scoreMAAlignment, rowGet, h5, h10, h20, h50, Row.cell,
          Option.isNone_iff_eq_none.mp h]
    · intro v5 v10 v20 v50 e5 e10 e20 e50
      have g : ∀ a b : ℚ, cellGT (some a) (some b) = decide (b < a) := fun _ _ => rfl
      cases hb : cellGT r.close (some v5) <;>
        by_cases h1 : v5 > v10 <;> by_cases h2 : v10 > v20 <;> by_cases h3 : v20 > v50 <;>
          simp [scoreMAAlignment, rowGet, h5, h10, h20, h50, Row.cell, e5, e10,
            e20, e50, g, hb, h1, h2, h3, gt_iff_lt] <;>
          norm_num
  · intro f r c h5 h10 h20 h50 hc hpos
    simp [scoreMAAlignment, rowGet, h5, h10, h20, h50, hc, cellGT, hpos, Row.cell]

/-- C5 witness: the amended theorem applied at concrete inputs — a row with
all four SMA columns present but `sma_50` undefined scores 0, and a row with
a positive close and no SMA columns at all scores 25. -/
theorem c5_ma_alignment_amended_witness :
    (scoreMAAlignment
        (Frame.mk [Col.close, Col.sma_5, Col.sma_10, Col.sma_20, Col.sma_50]
          [{ emptyRow with close := some 10, sma_5 := some 8 }])
        { emptyRow with close := some 10, sma_5 := some 8 }).1 = 0 ∧
    (scoreMAAlignment (Frame.mk [Col.close] [{ emptyRow with close := some 7 }])
        { emptyRow with close := some 7 }).1 = 25 :=
  ⟨(c5_ma_alignment_amended.1
      (Frame.mk [Col.close, Col.sma_5, Col.sma_10, Col.sma_20, Col.sma_50]
        [{ emptyRow with close := some 10, sma_5 := some 8 }])
      { emptyRow with close := some 10, sma_5 := some 8 }
      (by decide) (by decide) (by decide) (by decide)).1 (by right; left; rfl),
   c5_ma_alignment_amended.2 (Frame.mk [Col.close] [{ emptyRow with close := some 7 }])
      { emptyRow with close := some 7 } 7
      (by decide) (by decide) (by decide) (by decide) rfl (by norm_num)⟩

/-! ## C9 — price-position component: flat range and short history -/

/-- C9: a series with fewer than 20 rows gets the neutral (50,
"insufficient_data"); a series whose trailing 20-bar high equals its
trailing 20-bar low gets exactly (50, "flat"); and whenever the flat guard
fails, the denominator the division would see is non-zero, so the division
is never evaluated at zero. -/
theorem c9_price_position_flat_neutral (df : Frame) :
    (df.rows.length < 20 → scorePricePosition df = (50, "insufficient_data")) ∧
    (20 ≤ df.rows.length →
      cellEq (cellMax ((lastN 20 df.rows).map (·.high)))
          (cellMin ((lastN 20 df.rows).map (·.low))) = true →
      scorePricePosition df = (50, "flat")) ∧
    (∀ q : ℚ, cellEq (cellMax ((lastN 20 df.rows).map (·.high)))
          (cellMin ((lastN 20 df.rows).map (·.low))) = false →
      cellSub (cellMax ((lastN 20 df.rows).map (·.high)))
          (cellMin ((lastN 20 df.rows).map (·.low))) = some q → q ≠ 0) := by
  refine ⟨fun hlen => ?_, fun hlen heq => ?_, fun q hne hsub => ?_⟩
  · have h : (lastN 20 df.rows).length < 20 := by rw [lastN_length]; omega
    simp [scorePricePosition, h]
  · have h : ¬((lastN 20 df.rows).length < 20) := by rw [lastN_length]; omega
    simp [scorePricePosition, h, heq]
  · rcases hmax : cellMax ((lastN 20 df.rows).map (·.high)) with _ | hq
    · rw [hmax] at hsub; simp [cellSub] at hsub
    · rcases hmin : cellMin ((lastN 20 df.rows).map (·.low)) with _ | lq
      · rw [hmax, hmin] at hsub; simp [cellSub] at hsub
      · rw [hmax, hmin] at hsub hne
        simp [cellSub] at hsub
        simp [cellEq] at hne
        subst hsub
        exact sub_ne_zero.mpr hne

set_option maxRecDepth 4000 in
/-- C9 witness: the theorem applied at concrete inputs — a 1-row series is
scored (50, "insufficient_data") and a 20-row series whose highs and lows
are all 5 is scored (50, "flat"). -/
theorem c9_price_position_flat_neutral_witness :
    scorePricePosition (Frame.mk [Col.close, Col.high, Col.low] [emptyRow])
      = (50, "insufficient_data") ∧
    scorePricePosition (Frame.mk [Col.close, Col.high, Col.low]
        (List.replicate 20
          { emptyRow with close := some 5, high := some 5, low := some 5 }))
      = (50, "flat") :=
  ⟨(c9_price_position_flat_neutral _).1 (by decide),
   (c9_price_position_flat_neutral _).2.1 (by decide) (by decide)⟩

theorem except_error_bind {α β : Type} (e : String) (f : α → Except String β) :
    (Except.error e >>= f) = Except.error e := rfl

theorem except_ok_bind {α β : Type} (x : α) (f : α → Except String β) :
    (Except.ok x >>= f) = f x := rfl

theorem except_pure_bind {α β : Type} (x : α) (f : α → Except String β) :
    ((pure x : Except String α) >>= f) = f x := rfl

/-! ## C8 — missing weight keys: construction vs per-ticker scoring -/

/-- C8 counterexample: with a `weights` mapping present but missing the
`multi_strategy` key, pipeline construction completes normally (the partial
mapping is stored unvalidated — no fault is surfaced), and the fault first
occurs during per-ticker score computation, where `score_all` raises
`KeyError('multi_strategy')` for the first eligible ticker. -/
theorem c8_missing_weight_key_deferred :
    (scoringEngineInit
        ⟨some [("liquidity", 1/5), ("trend", 3/10), ("signal", 2/5)], none⟩).weights
      = [("liquidity", 1/5), ("trend", 3/10), ("signal", 2/5)] ∧
    scoreAll
        (scoringEngineInit
          ⟨some [("liquidity", 1/5), ("trend", 3/10), ("signal", 2/5)], none⟩)
        [("A", 80)] [("A", 60)] [("S1", [⟨"A", "价格突破", 10, []⟩])] "t0"
      = .error "multi_strategy" := by
  decide

/-- C8 (amended): the constructor performs no validation, so a `weights`
mapping missing any required key — `liquidity`, `trend`, `signal` or
`multi_strategy` — is stored as-is (construction completes normally) and
per-ticker score computation then fails with a `KeyError` raised inside
`_calculate_final_score`, which reads all four keys. -/
theorem c8_missing_weight_key_fails_per_ticker (cfg : ScoringCfg) (t : String)
    (liq trendTotal : ℚ) (signals : List Signal) (now : String) (k : String)
    (hk : k ∈ ["liquidity", "trend", "signal", "multi_strategy"])
    (hmiss : (scoringEngineInit cfg).weights.lookup k = none) :
    ∃ e, calculateFinalScore (scoringEngineInit cfg).weights t liq trendTotal signals now
      = .error e := by
  rcases hres : calculateFinalScore (scoringEngineInit cfg).weights t liq trendTotal
      signals now with e | rec
  · exact ⟨e, rfl⟩
  · exfalso
    have hwk : wget (scoringEngineInit cfg).weights k = .error k := by
      unfold wget
      rw [hmiss]
    unfold calculateFinalScore at hres
    rcases hl : wget (scoringEngineInit cfg).weights "liquidity" with el | vl <;>
      rw [hl] at hres
    · rw [except_error_bind] at hres; cases hres
    rcases ht : wget (scoringEngineInit cfg).weights "trend" with et | vt <;>
      rw [except_ok_bind, ht] at hres
    · rw [except_error_bind] at hres; cases hres
    rcases hs : wget (scoringEngineInit cfg).weights "signal" with es | vs <;>
      rw [except_ok_bind, hs] at hres
    · rw [except_error_bind] at hres; cases hres
    rcases hm : wget (scoringEngineInit cfg).weights "multi_strategy" with em | vm <;>
      rw [except_ok_bind, hm] at hres
    · rw [except_error_bind] at hres; cases hres
    simp only [List.mem_cons, List.not_mem_nil, or_false] at hk
    rcases hk with rfl | rfl | rfl | rfl
    · rw [hl] at hwk; cases hwk
    · rw [ht] at hwk; cases hwk
    · rw [hs] at hwk; cases hwk
    · rw [hm] at hwk; cases hwk

/-- C8 witness: the amended theorem applied to a concrete `weights` mapping
missing the `trend` key. -/
theorem c8_missing_weight_key_fails_per_ticker_witness :
    ∃ e, calculateFinalScore
        (scoringEngineInit
          ⟨some [("liquidity", 1/5), ("signal", 2/5), ("multi_strategy", 1/10)],
           none⟩).weights
        "A" 80 60 [] "t0" = .error e :=
  c8_missing_weight_key_fails_per_ticker _ "A" 80 60 [] "t0" "trend"
    (by decide) (by decide)

/-! ## C4 — weekly-trend filter: the rejection branch raises -/

/-- C4: a ticker whose daily trend is up (daily sma_20 slope = 100% over
the last 5 bars) while its weekly trend is down (weekly MA slope = −50%)
is a direct conflict; the code records it in `rejected` and then crashes in
the debug-log f-string (invalid format spec), and the per-ticker exception
handler ALSO appends it to `passed`.  The ticker therefore appears in both
returned mappings, violating the claimed partition. -/
theorem c4_conflict_ticker_in_both_mappings :
    "T" ∈ (weeklyFilterRun ⟨true, 2, 1, 1/200⟩
        (fun t => if t = "T" then some [some 4, some 2, some 1] else none)
        [("T", Frame.mk [Col.sma_20]
          (List.replicate 24 { emptyRow with sma_20 := some 1 } ++
            [{ emptyRow with sma_20 := some 2 }]))]).1.map Prod.fst ∧
    "T" ∈ (weeklyFilterRun ⟨true, 2, 1, 1/200⟩
        (fun t => if t = "T" then some [some 4, some 2, some 1] else none)
        [("T", Frame.mk [Col.sma_20]
          (List.replicate 24 { emptyRow with sma_20 := some 1 } ++
            [{ emptyRow with sma_20 := some 2 }]))]).2.map Prod.fst := by
  decide

/-! ## Grouping lemmas (`_group_signals_by_ticker`) -/

theorem insertSignal_keys (m : List (String × List Signal)) (t : String) (s : Signal) :
    (insertSignal m t s).map Prod.fst =
      if m.any (·.1 = t) then m.map Prod.fst else m.map Prod.fst ++ [t] := by
  unfold insertSignal
  split
  · rw [List.map_map]
    apply List.map_congr_left
    intro kv _
    by_cases h : kv.1 = t <;> simp [h]
  · simp

theorem insertSignal_keys_nodup {m : List (String × List Signal)} (t : String)
    (s : Signal) (h : (m.map Prod.fst).Nodup) :
    ((insertSignal m t s).map Prod.fst).Nodup := by
  rw [insertSignal_keys]
  by_cases hany : m.any (·.1 = t) = true
  · rwa [if_pos hany]
  · rw [if_neg hany, List.nodup_append]
    refine ⟨h, List.nodup_singleton t, ?_⟩
    intro x hx hx'
    simp only [List.mem_singleton] at hx'
    subst hx'
    obtain ⟨kv, hkv, hfst⟩ := List.mem_map.mp hx
    have := List.any_eq_false.mp (Bool.not_eq_true _ ▸ hany) kv hkv
    simp only [decide_eq_true_eq] at this
    exact this hfst

theorem grpVal_cons (kv : String × List Signal) (ms : List (String × List Signal))
    (t : String) :
    grpVal (kv :: ms) t =
      (if kv.1 = t then kv.2 else []) ++ grpVal ms t := by
  by_cases h : kv.1 = t <;> simp [grpVal, h]

theorem grpVal_nil_of_not_mem {m : List (String × List Signal)} {t : String}
    (h : t ∉ m.map Prod.fst) : grpVal m t = [] := by
  induction m with
  | nil => rfl
  | cons kv ms ih =>
    simp only [List.map_cons, List.mem_cons, not_or] at h
    have hne : kv.1 ≠ t := fun hh => h.1 hh.symm
    rw [grpVal_cons, if_neg hne, List.nil_append]
    exact ih h.2

theorem grpVal_append (l₁ l₂ : List (String × List Signal)) (t : String) :
    grpVal (l₁ ++ l₂) t = grpVal l₁ t ++ grpVal l₂ t := by
  simp [grpVal]

theorem grpVal_map_upd {m : List (String × List Signal)} (t t' : String) (s : Signal)
    (hnd : (m.map Prod.fst).Nodup) (hany : m.any (·.1 = t) = true) :
    grpVal (m.map fun kv => if kv.1 = t then (kv.1, kv.2 ++ [s]) else kv) t' =
      grpVal m t' ++ (if t' = t then [s] else []) := by
  induction m with
  | nil => simp at hany
  | cons kv ms ih =>
    simp only [List.map_cons, List.nodup_cons] at hnd
    by_cases hk : kv.1 = t
    · have hnot : t ∉ ms.map Prod.fst := hk ▸ hnd.1
      have hms : (ms.map fun kv => if kv.1 = t then (kv.1, kv.2 ++ [s]) else kv) = ms := by
        rw [← List.map_id ms]
        rw [List.map_map]
        apply List.map_congr_left
        intro kv' hkv'
        have : kv'.1 ≠ t := fun hh => hnot (hh ▸ List.mem_map_of_mem Prod.fst hkv')
        simp [this]
      rw [List.map_cons, hms, grpVal_cons, grpVal_cons]
      by_cases ht : t' = t
      · subst ht
        rw [grpVal_nil_of_not_mem hnot]
        simp [hk]
      · have ht' : ¬(t = t') := fun hh => ht hh.symm
        simp [hk, ht', ht]
    · have htail : ms.any (·.1 = t) = true := by
        rcases List.any_eq_true.mp hany with ⟨kv', hkv', hdec⟩
        rcases List.mem_cons.mp hkv' with rfl | hkv''
        · exact absurd (by simpa using hdec) hk
        · exact List.any_eq_true.mpr ⟨kv', hkv'', hdec⟩
      rw [List.map_cons, grpVal_cons, grpVal_cons, ih hnd.2 htail]
      simp [hk, List.append_assoc]

theorem insertSignal_grpVal {m : List (String × List Signal)} (t' t : String)
    (s : Signal) (hnd : (m.map Prod.fst).Nodup) :
    grpVal (insertSignal m t s) t' =
      grpVal m t' ++ (if t' = t then [s] else []) := by
  unfold insertSignal
  by_cases hany : m.any (·.1 = t) = true
  · rw [if_pos hany]
    exact grpVal_map_upd t t' s hnd hany
  · rw [if_neg hany, grpVal_append]
    by_cases ht : t' = t <;> simp [grpVal, ht, Eq.comm]

theorem groupFold_keys_nodup (ps : List (String × StratResult))
    (m : List (String × List Signal)) (h : (m.map Prod.fst).Nodup) :
    ((ps.foldl (fun m p => insertSignal m p.2.ticker (mkSignal p)) m).map Prod.fst).Nodup := by
  induction ps generalizing m with
  | nil => exact h
  | cons p ps ih => exact ih _ (insertSignal_keys_nodup _ _ h)

theorem groupFold_grpVal (ps : List (String × StratResult))
    (m : List (String × List Signal)) (t : String) (hnd : (m.map Prod.fst).Nodup) :
    grpVal (ps.foldl (fun m p => insertSignal m p.2.ticker (mkSignal p)) m) t =
      grpVal m t ++ sigsFor ps t := by
  induction ps generalizing m with
  | nil => simp [sigsFor]
  | cons p ps ih =>
    rw [List.foldl_cons, ih _ (insertSignal_keys_nodup _ _ hnd),
      insertSignal_grpVal t _ _ hnd]
    by_cases hpt : p.2.ticker = t
    · simp [sigsFor, hpt]
    · have : ¬(t = p.2.ticker) := fun hh => hpt hh.symm
      simp [sigsFor, hpt, this]

theorem grpVal_of_mem {m : List (String × List Signal)} {t : String}
    {sigs : List Signal} (hnd : (m.map Prod.fst).Nodup) (hmem : (t, sigs) ∈ m) :
    grpVal m t = sigs := by
  induction m with
  | nil => cases hmem
  | cons kv ms ih =>
    simp only [List.map_cons, List.nodup_cons] at hnd
    rcases List.mem_cons.mp hmem with rfl | hmem'
    · rw [grpVal_cons, if_pos rfl, grpVal_nil_of_not_mem hnd.1, List.append_nil]
    · have hne : kv.1 ≠ t := by
        intro hh
        exact hnd.1 (hh ▸ List.mem_map_of_mem Prod.fst hmem')
      rw [grpVal_cons, if_neg hne, List.nil_append]
      exact ih hnd.2 hmem'

theorem mem_groupSignals_val {srs : List (String × List StratResult)}
    {t : String} {sigs : List Signal}
    (hmem : (t, sigs) ∈ groupSignalsByTicker srs) :
    sigs = sigsFor (flatPairs srs) t := by
  have hnd := groupFold_keys_nodup (flatPairs srs) [] (by simp)
  have h1 : grpVal (groupSignalsByTicker srs) t = sigs := grpVal_of_mem hnd hmem
  have h2 : grpVal (groupSignalsByTicker srs) t = grpVal [] t ++ sigsFor (flatPairs srs) t :=
    groupFold_grpVal (flatPairs srs) [] t (by simp)
  rw [h1] at h2
  simpa [grpVal] using h2

theorem groupFold_vals_ne_nil (ps : List (String × StratResult))
    (m : List (String × List Signal)) (h : ∀ kv ∈ m, kv.2 ≠ []) :
    ∀ kv ∈ ps.foldl (fun m p => insertSignal m p.2.ticker (mkSignal p)) m,
      kv.2 ≠ [] := by
  induction ps generalizing m with
  | nil => exact h
  | cons p ps ih =>
    refine ih _ ?_
    intro kv hkv
    replace hkv : kv ∈ insertSignal m p.2.ticker (mkSignal p) := hkv
    unfold insertSignal at hkv
    split at hkv
    · obtain ⟨kv₀, hkv₀, rfl⟩ := List.mem_map.mp hkv
      by_cases hk : kv₀.1 = p.2.ticker <;> simp [hk, h kv₀ hkv₀]
    · rcases List.mem_append.mp hkv with hkv' | hkv'
      · exact h kv hkv'
      · simp only [List.mem_singleton] at hkv'
        subst hkv'
        simp

theorem groupFold_keys_sub (ps : List (String × StratResult))
    (m : List (String × List Signal)) :
    ∀ kv ∈ ps.foldl (fun m p => insertSignal m p.2.ticker (mkSignal p)) m,
      kv.1 ∈ m.map Prod.fst ∨ kv.1 ∈ ps.map (fun p => p.2.ticker) := by
  induction ps generalizing m with
  | nil => exact fun kv hkv => Or.inl (List.mem_map_of_mem Prod.fst hkv)
  | cons p ps ih =>
    intro kv hkv
    rcases ih _ kv hkv with hin | hin
    · rw [insertSignal_keys] at hin
      by_cases hany : m.any (·.1 = p.2.ticker) = true
      · rw [if_pos hany] at hin
        exact Or.inl hin
      · rw [if_neg hany] at hin
        rcases List.mem_append.mp hin with hin' | hin'
        · exact Or.inl hin'
        · simp only [List.mem_singleton] at hin'
          exact Or.inr (by simp [hin'])
    · exact Or.inr (by simp [hin])

theorem flatPairs_fst_mem {srs : List (String × List StratResult)}
    {p : String × StratResult} (h : p ∈ flatPairs srs) :
    p.1 ∈ srs.map Prod.fst := by
  simp only [flatPairs, List.mem_flatMap] at h
  obtain ⟨nr, hnr, hp⟩ := h
  obtain ⟨r, _, rfl⟩ := List.mem_map.mp hp
  exact List.mem_map_of_mem Prod.fst hnr

theorem nodup_of_length_le_one {α : Type} {l : List α} (h : l.length ≤ 1) :
    l.Nodup := by
  match l with
  | [] => simp
  | [a] => simp
  | a :: b :: rest => simp at h

theorem block_fst_eq {l : List StratResult} (n : String) (t : String) :
    ((l.map fun r => (n, r)).filter fun p => p.2.ticker = t).map Prod.fst =
      (l.filter fun r => r.ticker = t).map fun _ => n := by
  induction l with
  | nil => rfl
  | cons r rs ih =>
    by_cases h : r.ticker = t <;> simp [h, ih]

theorem filter_ticker_length_le_one {l : List StratResult}
    (hnd : (l.map (·.ticker)).Nodup) (t : String) :
    (l.filter fun r => r.ticker = t).length ≤ 1 := by
  induction l with
  | nil => simp
  | cons r rs ih =>
    simp only [List.map_cons, List.nodup_cons] at hnd
    by_cases h : r.ticker = t
    · have hnil : rs.filter (fun r => r.ticker = t) = [] := by
        rw [List.filter_eq_nil_iff]
        intro a ha
        simp only [decide_eq_true_eq]
        intro hat
        exact hnd.1 (by rw [h, ← hat]; exact List.mem_map_of_mem (·.ticker) ha)
      simp [h, hnil]
    · simpa [h] using ih hnd.2

theorem sigsFor_strategies_nodup (srs : List (String × List StratResult))
    (t : String) (hk : (srs.map Prod.fst).Nodup)
    (hv : ∀ nr ∈ srs, (nr.2.map (·.ticker)).Nodup) :
    ((sigsFor (flatPairs srs) t).map (·.strategy)).Nodup := by
  have hmap : ∀ ps : List (String × StratResult),
      (sigsFor ps t).map (·.strategy) = (ps.filter fun p => p.2.ticker = t).map Prod.fst := by
    intro ps
    simp only [sigsFor, List.map_map]
    apply List.map_congr_left
    intro p _
    rfl
  rw [hmap]
  induction srs with
  | nil => simp [flatPairs]
  | cons nr rest ih =>
    simp only [List.map_cons, List.nodup_cons] at hk
    have hstep : flatPairs (nr :: rest) =
        (nr.2.map fun r => (nr.1, r)) ++ flatPairs rest := by
      simp [flatPairs]
    rw [hstep, List.filter_append, List.map_append, block_fst_eq]
    have hblock := filter_ticker_length_le_one (hv nr (by simp)) t
    rw [List.nodup_append]
    refine ⟨?_, ih hk.2 (fun nr' h' => hv nr' (by simp [h'])), ?_⟩
    · exact nodup_of_length_le_one (by rw [List.length_map]; exact hblock)
    · intro x hx hx'
      obtain ⟨_, _, rfl⟩ := List.mem_map.mp hx
      obtain ⟨p, hp, hpe⟩ := List.mem_map.mp hx'
      exact hk.1 (hpe ▸ flatPairs_fst_mem (List.mem_of_mem_filter hp))

/-! ## Scored-list, ranking and sorting lemmas (`score_all`) -/

theorem calculateFinalScore_ok {w : Weights} {t : String} {lq tt : ℚ}
    {sigs : List Signal} {now : String} {rec : RankedRec}
    (h : calculateFinalScore w t lq tt sigs now = .ok rec) :
    ∃ wl wt ws wm, rec = calcScoreCore wl wt ws wm t lq tt sigs now := by
  unfold calculateFinalScore at h
  rcases hl : wget w "liquidity" with el | wl <;> rw [hl] at h
  · rw [except_error_bind] at h; cases h
  rcases ht : wget w "trend" with et | wt <;> rw [except_ok_bind, ht] at h
  · rw [except_error_bind] at h; cases h
  rcases hs : wget w "signal" with es | ws <;> rw [except_ok_bind, hs] at h
  · rw [except_error_bind] at h; cases h
  rcases hm : wget w "multi_strategy" with em | wm <;> rw [except_ok_bind, hm] at h
  · rw [except_error_bind] at h; cases h
  rw [except_ok_bind] at h
  exact ⟨wl, wt, ws, wm, (Except.ok.injEq _ _ ▸ h).symm⟩

theorem scoredListAux_cons_none_liq {w : Weights} {liq trend : List (String × ℚ)}
    {now : String} {g : String × List Signal} {gs : List (String × List Signal)}
    {acc : List RankedRec} (h : liq.lookup g.1 = none) :
    scoredListAux w liq trend now (g :: gs) acc = scoredListAux w liq trend now gs acc := by
  conv_lhs => rw [scoredListAux]
  rw [h]

theorem scoredListAux_cons_none_trend {w : Weights} {liq trend : List (String × ℚ)}
    {now : String} {g : String × List Signal} {gs : List (String × List Signal)}
    {acc : List RankedRec} (h : trend.lookup g.1 = none) :
    scoredListAux w liq trend now (g :: gs) acc = scoredListAux w liq trend now gs acc := by
  conv_lhs => rw [scoredListAux]
  rcases h' : liq.lookup g.1 with _ | lq
  · rfl
  · rw [h]

theorem scoredListAux_cons_some {w : Weights} {liq trend : List (String × ℚ)}
    {now : String} {g : String × List Signal} {gs : List (String × List Signal)}
    {acc : List RankedRec} {lq tt : ℚ}
    (hl : liq.lookup g.1 = some lq) (ht : trend.lookup g.1 = some tt) :
    scoredListAux w liq trend now (g :: gs) acc =
      match calculateFinalScore w g.1 lq tt g.2 now with
      | .error e => .error e
      | .ok r => scoredListAux w liq trend now gs (acc ++ [r]) := by
  conv_lhs => rw [scoredListAux]
  rw [hl, ht]

theorem scoredListAux_cons_error {w : Weights} {liq trend : List (String × ℚ)}
    {now : String} {g : String × List Signal} {gs : List (String × List Signal)}
    {acc : List RankedRec} {lq tt : ℚ} {e : String}
    (hl : liq.lookup g.1 = some lq) (ht : trend.lookup g.1 = some tt)
    (hc : calculateFinalScore w g.1 lq tt g.2 now = .error e) :
    scoredListAux w liq trend now (g :: gs) acc = .error e := by
  rw [scoredListAux_cons_some hl ht, hc]

theorem scoredListAux_cons_ok {w : Weights} {liq trend : List (String × ℚ)}
    {now : String} {g : String × List Signal} {gs : List (String × List Signal)}
    {acc : List RankedRec} {lq tt : ℚ} {rec : RankedRec}
    (hl : liq.lookup g.1 = some lq) (ht : trend.lookup g.1 = some tt)
    (hc : calculateFinalScore w g.1 lq tt g.2 now = .ok rec) :
    scoredListAux w liq trend now (g :: gs) acc =
      scoredListAux w liq trend now gs (acc ++ [rec]) := by
  rw [scoredListAux_cons_some hl ht, hc]

theorem scoredFold_mem (w : Weights) (liq trend : List (String × ℚ)) (now : String) :
    ∀ (groups : List (String × List Signal)) (acc all : List RankedRec),
      scoredListAux w liq trend now groups acc = Except.ok all →
      ∀ r ∈ all, r ∈ acc ∨ ∃ g ∈ groups, ∃ lq tt wl wt ws wm,
        r = calcScoreCore wl wt ws wm g.1 lq tt g.2 now := by
  intro groups
  induction groups with
  | nil =>
    intro acc all h r hr
    cases h
    exact Or.inl hr
  | cons g gs ih =>
    intro acc all h r hr
    rcases hlq : liq.lookup g.1 with _ | lq
    · rw [scoredListAux_cons_none_liq hlq] at h
      rcases ih acc all h r hr with hin | ⟨g', hg', rest⟩
      · exact Or.inl hin
      · exact Or.inr ⟨g', by simp [hg'], rest⟩
    rcases htt : trend.lookup g.1 with _ | tt
    · rw [scoredListAux_cons_none_trend htt] at h
      rcases ih acc all h r hr with hin | ⟨g', hg', rest⟩
      · exact Or.inl hin
      · exact Or.inr ⟨g', by simp [hg'], rest⟩
    rcases hcalc : calculateFinalScore w g.1 lq tt g.2 now with e | rec
    · rw [scoredListAux_cons_error hlq htt hcalc] at h
      cases h
    · rw [scoredListAux_cons_ok hlq htt hcalc] at h
      rcases ih _ all h r hr with hin | ⟨g', hg', rest⟩
      · rcases List.mem_append.mp hin with hin' | hin'
        · exact Or.inl hin'
        · simp only [List.mem_singleton] at hin'
          subst hin'
          obtain ⟨wl, wt, ws, wm, hrec⟩ := calculateFinalScore_ok hcalc
          exact Or.inr ⟨g, by simp, lq, tt, wl, wt, ws, wm, hrec⟩
      · exact Or.inr ⟨g', by simp [hg'], rest⟩

theorem scoredFold_length (w : Weights) (liq trend : List (String × ℚ)) (now : String) :
    ∀ (groups : List (String × List Signal)) (acc all : List RankedRec),
      scoredListAux w liq trend now groups acc = Except.ok all →
      all.length = acc.length +
        (groups.filter (fun g => (liq.lookup g.1).isSome && (trend.lookup g.1).isSome)).length := by
  intro groups
  induction groups with
  | nil =>
    intro acc all h
    cases h
    simp
  | cons g gs ih =>
    intro acc all h
    rcases hlq : liq.lookup g.1 with _ | lq
    · rw [scoredListAux_cons_none_liq hlq] at h
      rw [ih acc all h]; simp [hlq]
    rcases htt : trend.lookup g.1 with _ | tt
    · rw [scoredListAux_cons_none_trend htt] at h
      rw [ih acc all h]; simp [hlq, htt]
    rcases hcalc : calculateFinalScore w g.1 lq tt g.2 now with e | rec
    · rw [scoredListAux_cons_error hlq htt hcalc] at h
      cases h
    · rw [scoredListAux_cons_ok hlq htt hcalc] at h
      rw [ih _ all h]
      simp [hlq, htt]
      omega

theorem assignRanks_proj (k : ℕ) (l : List RankedRec) :
    (assignRanks k l).map (fun r => (r.ticker, r.strategy_signals, r.multi_strategy_score)) =
      l.map (fun r => (r.ticker, r.strategy_signals, r.multi_strategy_score)) := by
  induction l generalizing k with
  | nil => rfl
  | cons r rs ih => simp [assignRanks, ih]

theorem assignRanks_totals (k : ℕ) (l : List RankedRec) :
    (assignRanks k l).map (·.total) = l.map (·.total) := by
  induction l generalizing k with
  | nil => rfl
  | cons r rs ih => simp [assignRanks, ih]

theorem assignRanks_ranks (k : ℕ) (l : List RankedRec) :
    (assignRanks k l).map (·.rank) = (List.range' k l.length).map some := by
  induction l generalizing k with
  | nil => rfl
  | cons r rs ih => simp [assignRanks, ih, List.range'_succ]

theorem assignRanks_length (k : ℕ) (l : List RankedRec) :
    (assignRanks k l).length = l.length := by
  induction l generalizing k with
  | nil => rfl
  | cons r rs ih => simp [assignRanks, ih]

theorem assignRanks_headD (k : ℕ) (l : List RankedRec) :
    (assignRanks k l).head? = l.head?.map
      (fun r => { r with rank := some k, confidence := some (confidenceOf r) }) := by
  cases l <;> simp [assignRanks]

theorem insertScored_perm (r : RankedRec) (l : List RankedRec) :
    (insertScored r l).Perm (r :: l) := by
  induction l with
  | nil => rfl
  | cons y ys ih =>
    unfold insertScored
    by_cases h : y.total < r.total
    · rw [if_pos h]
    · rw [if_neg h]
      exact (ih.cons y).trans (List.Perm.swap r y ys)

theorem sortScoredDesc_perm (l : List RankedRec) : (sortScoredDesc l).Perm l := by
  suffices h : ∀ (l : List RankedRec) (acc : List RankedRec),
      (l.foldl (fun acc r => insertScored r acc) acc).Perm (acc ++ l) by
    simpa [sortScoredDesc] using h l []
  intro l
  induction l with
  | nil => simp
  | cons r rs ih =>
    intro acc
    rw [List.foldl_cons]
    refine (ih _).trans ?_
    refine (List.Perm.append_right rs (insertScored_perm r acc)).trans ?_
    exact List.perm_middle.symm

theorem insertScored_pairwise {l : List RankedRec}
    (h : l.Pairwise (fun a b => b.total ≤ a.total)) (r : RankedRec) :
    (insertScored r l).Pairwise (fun a b => b.total ≤ a.total) := by
  induction l with
  | nil => simp [insertScored]
  | cons y ys ih =>
    rw [List.pairwise_cons] at h
    unfold insertScored
    by_cases hc : y.total < r.total
    · rw [if_pos hc]
      rw [List.pairwise_cons]
      constructor
      · intro a ha
        rcases List.mem_cons.mp ha with rfl | ha'
        · exact le_of_lt hc
        · exact le_trans (h.1 a ha') (le_of_lt hc)
      · exact List.pairwise_cons.mpr h
    · rw [if_neg hc]
      rw [List.pairwise_cons]
      constructor
      · intro a ha
        have ha' := (insertScored_perm r ys).mem_iff.mp ha
        rcases List.mem_cons.mp ha' with rfl | ha''
        · exact not_lt.mp hc
        · exact h.1 a ha''
      · exact ih h.2

theorem sortScoredDesc_pairwise (l : List RankedRec) :
    (sortScoredDesc l).Pairwise (fun a b => b.total ≤ a.total) := by
  suffices h : ∀ (l acc : List RankedRec),
      acc.Pairwise (fun a b => b.total ≤ a.total) →
      (l.foldl (fun acc r => insertScored r acc) acc).Pairwise
        (fun a b => b.total ≤ a.total) by
    exact h l [] (by simp)
  intro l
  induction l with
  | nil => exact fun acc h => h
  | cons r rs ih => exact fun acc h => ih _ (insertScored_pairwise h r)

theorem insertScored_map {f : RankedRec → RankedRec}
    (hf : ∀ x, (f x).total = x.total) (r : RankedRec) (l : List RankedRec) :
    (insertScored r l).map f = insertScored (f r) (l.map f) := by
  induction l with
  | nil => rfl
  | cons y ys ih =>
    by_cases h : y.total < r.total
    · have h' : (f y).total < (f r).total := by rw [hf, hf]; exact h
      have e1 : insertScored r (y :: ys) = r :: y :: ys := by
        simp only [insertScored]; rw [if_pos h]
      have e2 : insertScored (f r) (f y :: ys.map f) = f r :: f y :: ys.map f := by
        simp only [insertScored]; rw [if_pos h']
      rw [e1]
      simp only [List.map_cons]
      rw [e2]
    · have h' : ¬(f y).total < (f r).total := by rw [hf, hf]; exact h
      have e1 : insertScored r (y :: ys) = y :: insertScored r ys := by
        simp only [insertScored]; rw [if_neg h]
      have e2 : insertScored (f r) (f y :: ys.map f) =
          f y :: insertScored (f r) (ys.map f) := by
        simp only [insertScored]; rw [if_neg h']
      rw [e1]
      simp only [List.map_cons]
      rw [e2, ih]

theorem sortScoredDesc_map {f : RankedRec → RankedRec}
    (hf : ∀ x, (f x).total = x.total) (l : List RankedRec) :
    (sortScoredDesc l).map f = sortScoredDesc (l.map f) := by
  suffices h : ∀ (l acc : List RankedRec),
      (l.foldl (fun acc r => insertScored r acc) acc).map f =
        (l.map f).foldl (fun acc r => insertScored r acc) (acc.map f) by
    simpa [sortScoredDesc] using h l []
  intro l
  induction l with
  | nil => simp
  | cons r rs ih =>
    intro acc
    rw [List.foldl_cons, List.map_cons, List.foldl_cons, ih, insertScored_map hf]

theorem flatPairs_mem {srs : List (String × List StratResult)}
    {p : String × StratResult} (h : p ∈ flatPairs srs) :
    ∃ nr ∈ srs, p.1 = nr.1 ∧ p.2 ∈ nr.2 := by
  simp only [flatPairs, List.mem_flatMap] at h
  obtain ⟨nr, hnr, hp⟩ := h
  obtain ⟨r, hrm, rfl⟩ := List.mem_map.mp hp
  exact ⟨nr, hnr, rfl, hrm⟩

/-- Common plumbing: from a successful `score_all` run, every output record
is a rank/confidence-annotated copy of a `calcScoreCore` record built for
one of the grouped tickers. -/
theorem scoreAll_mem_core {eng : ScoringEngine} {liq trend : List (String × ℚ)}
    {srs : List (String × List StratResult)} {now : String}
    {out : List RankedRec} {r : RankedRec}
    (hok : scoreAll eng liq trend srs now = .ok out) (hr : r ∈ out) :
    ∃ g ∈ groupSignalsByTicker srs, ∃ lq tt wl wt ws wm,
      r.ticker = g.1 ∧ r.strategy_signals = g.2 ∧
      r.multi_strategy_score =
        (calcScoreCore wl wt ws wm g.1 lq tt g.2 now).multi_strategy_score := by
  replace hok : (scoredList eng.weights liq trend (groupSignalsByTicker srs) now >>=
      fun allScores => pure (assignRanks 1
        ((sortScoredDesc allScores).take eng.output_count))) = Except.ok out := hok
  rcases hall : scoredList eng.weights liq trend (groupSignalsByTicker srs) now
    with e | allScores <;> rw [hall] at hok
  · rw [except_error_bind] at hok
    cases hok
  rw [except_ok_bind] at hok
  rw [show (pure (assignRanks 1
      ((sortScoredDesc allScores).take eng.output_count)) : Except String _) =
    Except.ok (assignRanks 1 ((sortScoredDesc allScores).take eng.output_count))
    from rfl] at hok
  injection hok with hout
  subst hout
  have hproj : (r.ticker, r.strategy_signals, r.multi_strategy_score) ∈
      ((sortScoredDesc allScores).take eng.output_count).map
        (fun r => (r.ticker, r.strategy_signals, r.multi_strategy_score)) := by
    rw [← assignRanks_proj 1]
    exact List.mem_map_of_mem _ hr
  obtain ⟨r', hr', hpe⟩ := List.mem_map.mp hproj
  have hr'' : r' ∈ allScores :=
    (sortScoredDesc_perm allScores).mem_iff.mp (List.mem_of_mem_take hr')
  have hall' : scoredListAux eng.weights liq trend now
      (groupSignalsByTicker srs) [] = Except.ok allScores := hall
  rcases scoredFold_mem eng.weights liq trend now _ [] allScores hall' r' hr'' with
    hin | ⟨g, hg, lq, tt, wl, wt, ws, wm, hrec⟩
  · cases hin
  refine ⟨g, hg, lq, tt, wl, wt, ws, wm, ?_, ?_, ?_⟩
  · have := congrArg Prod.fst hpe
    simp only at this
    rw [← this, hrec]
    rfl
  · have := congrArg (fun q => q.2.1) hpe
    simp only at this
    rw [← this, hrec]
    rfl
  · have := congrArg (fun q => q.2.2) hpe
    simp only at this
    rw [← this, hrec]

/-! ## C1 — multi-strategy resonance counts distinct strategies -/

/-- C1: when the per-run strategy results carry distinct strategy names and
each strategy fires at most once per ticker (which is how the pipeline
invokes the engine: `strategy_results` is a dict keyed by strategy name, and
every built-in `scan` visits each ticker of the universe once, appending at
most one result for it), every scored record's multi-strategy resonance
score is 100/70/30/0 according to whether ≥3/2/1/0 distinct strategies
fired for that ticker — in particular it saturates at 100 from 3 distinct
strategies onward. -/
theorem c1_multi_strategy_resonance (eng : ScoringEngine)
    (liq trend : List (String × ℚ)) (srs : List (String × List StratResult))
    (now : String) (out : List RankedRec) (r : RankedRec)
    (hk : (srs.map Prod.fst).Nodup)
    (hv : ∀ nr ∈ srs, (nr.2.map (·.ticker)).Nodup)
    (hok : scoreAll eng liq trend srs now = .ok out)
    (hr : r ∈ out) :
    r.multi_strategy_score =
      (if 3 ≤ ((r.strategy_signals.map (·.strategy)).dedup).length then (100 : ℚ)
       else if ((r.strategy_signals.map (·.strategy)).dedup).length = 2 then 70
       else if ((r.strategy_signals.map (·.strategy)).dedup).length = 1 then 30
       else 0) := by
  obtain ⟨g, hg, lq, tt, wl, wt, ws, wm, hticker, hsigs, hms⟩ :=
    scoreAll_mem_core hok hr
  have hval : g.2 = sigsFor (flatPairs srs) g.1 := mem_groupSignals_val hg
  have hnods : ((g.2.map (·.strategy)).dedup).length = g.2.length := by
    rw [hval]
    rw [(sigsFor_strategies_nodup srs g.1 hk hv).dedup, List.length_map]
  rw [hsigs, hms, hnods]
  show roundTo2 (scoreMultiStrategy g.2) = _
  simp only [scoreMultiStrategy]
  split_ifs <;> decide

/-- C1 witness: a run in which three distinct strategies fire for ticker A
(score saturates at 100 — same as it would for four) and one for ticker B
(score 30). -/
theorem c1_multi_strategy_resonance_witness :
    ({ (calcScoreCore (1/5) (3/10) (2/5) (1/10) "A" 80 60
        [⟨"S1", "x", 10, []⟩, ⟨"S2", "y", 10, []⟩, ⟨"S3", "z", 10, []⟩] "t0")
        with rank := some 1,
             confidence := some (confidenceOf (calcScoreCore (1/5) (3/10) (2/5)
               (1/10) "A" 80 60
               [⟨"S1", "x", 10, []⟩, ⟨"S2", "y", 10, []⟩, ⟨"S3", "z", 10, []⟩] "t0")) }
      : RankedRec).multi_strategy_score =
      (if 3 ≤ ((({ (calcScoreCore (1/5) (3/10) (2/5) (1/10) "A" 80 60
            [⟨"S1", "x", 10, []⟩, ⟨"S2", "y", 10, []⟩, ⟨"S3", "z", 10, []⟩] "t0")
            with rank := some 1,
                 confidence := some (confidenceOf (calcScoreCore (1/5) (3/10) (2/5)
                   (1/10) "A" 80 60
                   [⟨"S1", "x", 10, []⟩, ⟨"S2", "y", 10, []⟩,
                    ⟨"S3", "z", 10, []⟩] "t0")) }
          : RankedRec).strategy_signals.map (·.strategy)).dedup).length then (100 : ℚ)
       else if ((({ (calcScoreCore (1/5) (3/10) (2/5) (1/10) "A" 80 60
            [⟨"S1", "x", 10, []⟩, ⟨"S2", "y", 10, []⟩, ⟨"S3", "z", 10, []⟩] "t0")
            with rank := some 1,
                 confidence := some (confidenceOf (calcScoreCore (1/5) (3/10) (2/5)
                   (1/10) "A" 80 60
                   [⟨"S1", "x", 10, []⟩, ⟨"S2", "y", 10, []⟩,
                    ⟨"S3", "z", 10, []⟩] "t0")) }
          : RankedRec).strategy_signals.map (·.strategy)).dedup).length = 2 then 70
       else if ((({ (calcScoreCore (1/5) (3/10) (2/5) (1/10) "A" 80 60
            [⟨"S1", "x", 10, []⟩, ⟨"S2", "y", 10, []⟩, ⟨"S3", "z", 10, []⟩] "t0")
            with rank := some 1,
                 confidence := some (confidenceOf (calcScoreCore (1/5) (3/10) (2/5)
                   (1/10) "A" 80 60
                   [⟨"S1", "x", 10, []⟩, ⟨"S2", "y", 10, []⟩,
                    ⟨"S3", "z", 10, []⟩] "t0")) }
          : RankedRec).strategy_signals.map (·.strategy)).dedup).length = 1 then 30
       else 0) :=
  c1_multi_strategy_resonance (scoringEngineInit ⟨none, none⟩)
    [("A", 80)] [("A", 60)]
    [("S1", [⟨"A", "x", 10, []⟩]), ("S2", [⟨"A", "y", 10, []⟩]),
     ("S3", [⟨"A", "z", 10, []⟩])] "t0"
    [{ (calcScoreCore (1/5) (3/10) (2/5) (1/10) "A" 80 60
        [⟨"S1", "x", 10, []⟩, ⟨"S2", "y", 10, []⟩, ⟨"S3", "z", 10, []⟩] "t0")
        with rank := some 1,
             confidence := some (confidenceOf (calcScoreCore (1/5) (3/10) (2/5)
               (1/10) "A" 80 60
               [⟨"S1", "x", 10, []⟩, ⟨"S2", "y", 10, []⟩, ⟨"S3", "z", 10, []⟩] "t0")) }]
    { (calcScoreCore (1/5) (3/10) (2/5) (1/10) "A" 80 60
        [⟨"S1", "x", 10, []⟩, ⟨"S2", "y", 10, []⟩, ⟨"S3", "z", 10, []⟩] "t0")
        with rank := some 1,
             confidence := some (confidenceOf (calcScoreCore (1/5) (3/10) (2/5)
               (1/10) "A" 80 60
               [⟨"S1", "x", 10, []⟩, ⟨"S2", "y", 10, []⟩, ⟨"S3", "z", 10, []⟩] "t0")) }
    (by decide) (by decide) (by decide) (by decide)

/-! ## C3 — output records: filter survivors with at least one signal -/

/-- C3: for every run of the screening pipeline — with any hard filters
whose `passed` output is a subset of their input and any strategy scans
that only emit tickers of the universe they are given (both properties hold
for every filter and scan in the repository) — every record of the final
output belongs to a ticker that survived the whole three-stage hard-filter
chain (hence each individual filter), and carries at least one signal; a
ticker with zero signals never appears. -/
theorem c3_output_survivors_with_signals (dq liqF tr : FilterFn)
    (scans : List (String × ScanFn)) (liqScoreOf trendTotalOf : Frame → ℚ)
    (eng : ScoringEngine) (now : String) (data : List (String × Frame))
    (out : List RankedRec) (r : RankedRec)
    (hdq : ∀ u, ∀ x ∈ (dq u).1, x ∈ u)
    (hliq : ∀ u, ∀ x ∈ (liqF u).1, x ∈ u)
    (htr : ∀ u, ∀ x ∈ (tr u).1, x ∈ u)
    (hscan : ∀ s ∈ scans, ∀ u, ∀ res ∈ s.2 u, res.ticker ∈ u.map Prod.fst)
    (hok : runScreening dq liqF tr scans liqScoreOf trendTotalOf eng now data = .ok out)
    (hr : r ∈ out) :
    r.ticker ∈ ((tr ((liqF ((dq data).1)).1)).1).map Prod.fst ∧
    r.ticker ∈ ((liqF ((dq data).1)).1).map Prod.fst ∧
    r.ticker ∈ ((dq data).1).map Prod.fst ∧
    r.ticker ∈ data.map Prod.fst ∧
    r.strategy_signals ≠ [] := by
  unfold runScreening at hok
  by_cases hempty : ((tr ((liqF ((dq data).1)).1)).1).isEmpty
  · rw [if_pos hempty] at hok
    injection hok with hout
    rw [← hout] at hr
    cases hr
  rw [if_neg hempty] at hok
  obtain ⟨g, hg, lq, tt, wl, wt, ws, wm, hticker, hsigs, _⟩ :=
    scoreAll_mem_core hok hr
  have hg' : g ∈ (flatPairs (scans.map fun s =>
      (s.1, s.2 ((tr ((liqF ((dq data).1)).1)).1)))).foldl
      (fun m p => insertSignal m p.2.ticker (mkSignal p)) [] := hg
  have hne : g.2 ≠ [] := by
    have := groupFold_vals_ne_nil
      (flatPairs (scans.map fun s => (s.1, s.2 ((tr ((liqF ((dq data).1)).1)).1)))) []
      (by intro kv hkv; cases hkv) g hg'
    exact this
  have hkey : g.1 ∈ ((tr ((liqF ((dq data).1)).1)).1).map Prod.fst := by
    rcases groupFold_keys_sub
        (flatPairs (scans.map fun s => (s.1, s.2 ((tr ((liqF ((dq data).1)).1)).1)))) []
        g hg' with hin | hin
    · cases hin
    obtain ⟨p, hp, hpt⟩ := List.mem_map.mp hin
    obtain ⟨nr, hnr, _, hpres⟩ := flatPairs_mem hp
    obtain ⟨s, hs, rfl⟩ := List.mem_map.mp hnr
    exact hpt ▸ hscan s hs _ p.2 hpres
  have hd3 : r.ticker ∈ ((tr ((liqF ((dq data).1)).1)).1).map Prod.fst :=
    hticker ▸ hkey
  obtain ⟨x3, hx3, hx3t⟩ := List.mem_map.mp hd3
  have hx2 := htr _ x3 hx3
  have hx1 := hliq _ x3 hx2
  have hx0 := hdq _ x3 hx1
  refine ⟨hd3, ?_, ?_, ?_, ?_⟩
  · exact hx3t ▸ List.mem_map_of_mem Prod.fst hx2
  · exact hx3t ▸ List.mem_map_of_mem Prod.fst hx1
  · exact hx3t ▸ List.mem_map_of_mem Prod.fst hx0
  · rw [hsigs]; exact hne

/-- C3 witness: the theorem applied to a concrete one-ticker pipeline with
pass-through filters and a scan that fires on every ticker of the universe
it is given. -/
theorem c3_output_survivors_with_signals_witness :
    ({ (calcScoreCore (1/5) (3/10) (2/5) (1/10) "A" 80 60
        [⟨"S", "sig", 1, []⟩] "t0")
        with rank := some 1,
             confidence := some (confidenceOf (calcScoreCore (1/5) (3/10) (2/5)
               (1/10) "A" 80 60 [⟨"S", "sig", 1, []⟩] "t0")) }
      : RankedRec).ticker ∈ [("A", Frame.mk [] [])].map Prod.fst ∧
    ({ (calcScoreCore (1/5) (3/10) (2/5) (1/10) "A" 80 60
        [⟨"S", "sig", 1, []⟩] "t0")
        with rank := some 1,
             confidence := some (confidenceOf (calcScoreCore (1/5) (3/10) (2/5)
               (1/10) "A" 80 60 [⟨"S", "sig", 1, []⟩] "t0")) }
      : RankedRec).ticker ∈ [("A", Frame.mk [] [])].map Prod.fst ∧
    ({ (calcScoreCore (1/5) (3/10) (2/5) (1/10) "A" 80 60
        [⟨"S", "sig", 1, []⟩] "t0")
        with rank := some 1,
             confidence := some (confidenceOf (calcScoreCore (1/5) (3/10) (2/5)
               (1/10) "A" 80 60 [⟨"S", "sig", 1, []⟩] "t0")) }
      : RankedRec).ticker ∈ [("A", Frame.mk [] [])].map Prod.fst ∧
    ({ (calcScoreCore (1/5) (3/10) (2/5) (1/10) "A" 80 60
        [⟨"S", "sig", 1, []⟩] "t0")
        with rank := some 1,
             confidence := some (confidenceOf (calcScoreCore (1/5) (3/10) (2/5)
               (1/10) "A" 80 60 [⟨"S", "sig", 1, []⟩] "t0")) }
      : RankedRec).ticker ∈ [("A", Frame.mk [] [])].map Prod.fst ∧
    ({ (calcScoreCore (1/5) (3/10) (2/5) (1/10) "A" 80 60
        [⟨"S", "sig", 1, []⟩] "t0")
        with rank := some 1,
             confidence := some (confidenceOf (calcScoreCore (1/5) (3/10) (2/5)
               (1/10) "A" 80 60 [⟨"S", "sig", 1, []⟩] "t0")) }
      : RankedRec).strategy_signals ≠ [] :=
  c3_output_survivors_with_signals (fun d => (d, [])) (fun d => (d, []))
    (fun d => (d, []))
    [("S", fun u => u.map fun td => ⟨td.1, "sig", 1, []⟩)]
    (fun _ => 80) (fun _ => 60) (scoringEngineInit ⟨none, none⟩) "t0"
    [("A", Frame.mk [] [])]
    [{ (calcScoreCore (1/5) (3/10) (2/5) (1/10) "A" 80 60
        [⟨"S", "sig", 1, []⟩] "t0")
        with rank := some 1,
             confidence := some (confidenceOf (calcScoreCore (1/5) (3/10) (2/5)
               (1/10) "A" 80 60 [⟨"S", "sig", 1, []⟩] "t0")) }]
    { (calcScoreCore (1/5) (3/10) (2/5) (1/10) "A" 80 60
        [⟨"S", "sig", 1, []⟩] "t0")
        with rank := some 1,
             confidence := some (confidenceOf (calcScoreCore (1/5) (3/10) (2/5)
               (1/10) "A" 80 60 [⟨"S", "sig", 1, []⟩] "t0")) }
    (fun u x hx => hx) (fun u x hx => hx) (fun u x hx => hx)
    (by
      intro s hs u res hres
      simp only [List.mem_singleton] at hs
      subst hs
      obtain ⟨td, htd, rfl⟩ := List.mem_map.mp hres
      exact List.mem_map_of_mem Prod.fst htd)
    (by decide) (by decide)

/-! ## C7 — ranks are consecutive, output sorted descending -/

/-- C7: in every successful run's final output the assigned ranks are
exactly the consecutive integers 1..N with no gaps or duplicates, where
N = min(output_count, number of eligible tickers — grouped tickers with
both a liquidity and a trend score); the records are listed in descending
order of final total; and the rank-1 record's total is maximal among all
scored records. -/
theorem c7_ranks_consecutive (eng : ScoringEngine) (liq trend : List (String × ℚ))
    (srs : List (String × List StratResult)) (now : String) (out : List RankedRec)
    (hok : scoreAll eng liq trend srs now = .ok out) :
    out.map (·.rank) =
      (List.range' 1 (min eng.output_count (eligibleCount liq trend srs))).map some ∧
    out.Pairwise (fun a b => b.total ≤ a.total) ∧
    (∀ h ∈ out.head?, ∀ allScores,
      scoredList eng.weights liq trend (groupSignalsByTicker srs) now = .ok allScores →
      ∀ x ∈ allScores, x.total ≤ h.total) := by
  replace hok : (scoredList eng.weights liq trend (groupSignalsByTicker srs) now >>=
      fun allScores => pure (assignRanks 1
        ((sortScoredDesc allScores).take eng.output_count))) = Except.ok out := hok
  rcases hall : scoredList eng.weights liq trend (groupSignalsByTicker srs) now
    with e | allScores <;> rw [hall] at hok
  · rw [except_error_bind] at hok
    cases hok
  rw [except_ok_bind] at hok
  rw [show (pure (assignRanks 1
      ((sortScoredDesc allScores).take eng.output_count)) : Except String _) =
    Except.ok (assignRanks 1 ((sortScoredDesc allScores).take eng.output_count))
    from rfl] at hok
  injection hok with hout
  subst hout
  have hlen : allScores.length = eligibleCount liq trend srs := by
    have hall' : scoredListAux eng.weights liq trend now
        (groupSignalsByTicker srs) [] = Except.ok allScores := hall
    have := scoredFold_length eng.weights liq trend now _ [] allScores hall'
    simpa [eligibleCount] using this
  refine ⟨?_, ?_, ?_⟩
  · rw [assignRanks_ranks]
    congr 2
    rw [List.length_take, (sortScoredDesc_perm allScores).length_eq, hlen]
  · have hpw : ((sortScoredDesc allScores).take eng.output_count).Pairwise
        (fun a b => b.total ≤ a.total) :=
      (sortScoredDesc_pairwise allScores).sublist (List.take_sublist _ _)
    have htot := assignRanks_totals 1 ((sortScoredDesc allScores).take eng.output_count)
    have h1 : (((sortScoredDesc allScores).take eng.output_count).map (·.total)).Pairwise
        (fun a b : ℚ => b ≤ a) := List.pairwise_map.mpr hpw
    rw [← htot] at h1
    exact List.pairwise_map.mp h1
  · intro h hh allScores' hall2 x hx
    have he : allScores = allScores' := by injection hall2
    subst he
    rw [assignRanks_headD] at hh
    rcases hc : eng.output_count with _ | c
    · rw [hc] at hh
      simp at hh
    rcases hsorted : sortScoredDesc allScores with _ | ⟨s, ss⟩
    · have : allScores = [] := by
        have := (sortScoredDesc_perm allScores).length_eq
        rw [hsorted] at this
        exact List.length_eq_zero.mp this.symm
      rw [this] at hx
      cases hx
    · rw [hc, hsorted] at hh
      simp only [List.take_succ_cons, List.head?_cons, Option.map_some'] at hh
      rw [Option.mem_def] at hh
      injection hh with hh
      subst hh
      have hx' : x ∈ s :: ss := by
        rw [← hsorted]
        exact ((sortScoredDesc_perm allScores).symm.mem_iff).mp hx
      have hpw := sortScoredDesc_pairwise allScores
      rw [hsorted, List.pairwise_cons] at hpw
      have hle : x.total ≤ s.total := by
        rcases List.mem_cons.mp hx' with rfl | hx''
        · exact le_refl _
        · exact hpw.1 x hx''
      simpa using hle

/-- C7 witness: the theorem applied to a concrete two-ticker run with
output_count 1: the single output slot gets rank 1 and the higher total. -/
theorem c7_ranks_consecutive_witness :
    (assignRanks 1 ((sortScoredDesc
        [calcScoreCore (1/5) (3/10) (2/5) (1/10) "A" 80 60 [⟨"S1", "x", 10, []⟩] "t0",
         calcScoreCore (1/5) (3/10) (2/5) (1/10) "B" 90 70 [⟨"S1", "y", 11, []⟩] "t0"]).take 1)).map
        (·.rank) =
      (List.range' 1 (min 1 (eligibleCount [("A", 80), ("B", 90)] [("A", 60), ("B", 70)]
        [("S1", [⟨"A", "x", 10, []⟩, ⟨"B", "y", 11, []⟩])]))).map some ∧
    (assignRanks 1 ((sortScoredDesc
        [calcScoreCore (1/5) (3/10) (2/5) (1/10) "A" 80 60 [⟨"S1", "x", 10, []⟩] "t0",
         calcScoreCore (1/5) (3/10) (2/5) (1/10) "B" 90 70 [⟨"S1", "y", 11, []⟩] "t0"]).take 1)).Pairwise
      (fun a b => b.total ≤ a.total) ∧
    (∀ h ∈ (assignRanks 1 ((sortScoredDesc
        [calcScoreCore (1/5) (3/10) (2/5) (1/10) "A" 80 60 [⟨"S1", "x", 10, []⟩] "t0",
         calcScoreCore (1/5) (3/10) (2/5) (1/10) "B" 90 70 [⟨"S1", "y", 11, []⟩] "t0"]).take 1)).head?,
      ∀ allScores,
        scoredList (scoringEngineInit ⟨none, some 1⟩).weights
          [("A", 80), ("B", 90)] [("A", 60), ("B", 70)]
          (groupSignalsByTicker [("S1", [⟨"A", "x", 10, []⟩, ⟨"B", "y", 11, []⟩])]) "t0"
          = .ok allScores →
        ∀ x ∈ allScores, x.total ≤ h.total) :=
  c7_ranks_consecutive (scoringEngineInit ⟨none, some 1⟩)
    [("A", 80), ("B", 90)] [("A", 60), ("B", 70)]
    [("S1", [⟨"A", "x", 10, []⟩, ⟨"B", "y", 11, []⟩])] "t0" _ (by decide)

/-! ## C2 — determinism and the embedded wall-clock timestamp -/

/-- C2 counterexample: two invocations of the Scoring Engine on identical
inputs and configuration but at different wall-clock instants produce
different ranked output — each record embeds `datetime.now().isoformat()`
in its `timestamp` field, so the output is not byte-identical. -/
theorem c2_not_byte_identical :
    scoreAll (scoringEngineInit ⟨none, none⟩) [("A", 80)] [("A", 60)]
        [("S1", [⟨"A", "价格突破", 10, []⟩])] "2024-01-02T09:00:00" ≠
      scoreAll (scoringEngineInit ⟨none, none⟩) [("A", 80)] [("A", 60)]
        [("S1", [⟨"A", "价格突破", 10, []⟩])] "2024-01-02T09:00:01" := by
  decide

theorem except_map_ok {α β : Type} (f : α → β) (x : α) :
    (Except.ok x : Except String α).map f = Except.ok (f x) := rfl

theorem except_map_error {α β : Type} (f : α → β) (e : String) :
    (Except.error e : Except String α).map f = Except.error e := rfl

theorem except_map_pure {α β : Type} (f : α → β) (x : α) :
    ((pure x : Except String α)).map f = Except.ok (f x) := rfl

theorem assignRanks_erase (k : ℕ) (l : List RankedRec) :
    (assignRanks k l).map eraseTimestamp = assignRanks k (l.map eraseTimestamp) := by
  induction l generalizing k with
  | nil => rfl
  | cons r rs ih =>
    simp only [assignRanks, List.map_cons, ih]
    rfl

theorem calcScoreCore_erase (wl wt ws wm : ℚ) (t : String) (lq tt : ℚ)
    (sigs : List Signal) (n₁ n₂ : String) :
    eraseTimestamp (calcScoreCore wl wt ws wm t lq tt sigs n₁) =
      eraseTimestamp (calcScoreCore wl wt ws wm t lq tt sigs n₂) := rfl

theorem calculateFinalScore_erase (w : Weights) (t : String) (lq tt : ℚ)
    (sigs : List Signal) (n₁ n₂ : String) :
    (calculateFinalScore w t lq tt sigs n₁).map eraseTimestamp =
      (calculateFinalScore w t lq tt sigs n₂).map eraseTimestamp := by
  unfold calculateFinalScore
  rcases hl : wget w "liquidity" with el | wl
  · rw [except_error_bind, except_error_bind]
  rw [except_ok_bind, except_ok_bind]
  rcases ht : wget w "trend" with et | wt
  · rw [except_error_bind, except_error_bind]
  rw [except_ok_bind, except_ok_bind]
  rcases hs : wget w "signal" with es | ws
  · rw [except_error_bind, except_error_bind]
  rw [except_ok_bind, except_ok_bind]
  rcases hm : wget w "multi_strategy" with em | wm
  · rw [except_error_bind, except_error_bind]
  rw [except_ok_bind, except_ok_bind, except_map_pure, except_map_pure]
  exact congrArg Except.ok (calcScoreCore_erase wl wt ws wm t lq tt sigs n₁ n₂)

theorem scoredFold_erase (w : Weights) (liq trend : List (String × ℚ))
    (n₁ n₂ : String) :
    ∀ (groups : List (String × List Signal)) (acc₁ acc₂ : List RankedRec),
      acc₁.map eraseTimestamp = acc₂.map eraseTimestamp →
      (scoredListAux w liq trend n₁ groups acc₁).map (List.map eraseTimestamp) =
        (scoredListAux w liq trend n₂ groups acc₂).map (List.map eraseTimestamp) := by
  intro groups
  induction groups with
  | nil =>
    intro acc₁ acc₂ hacc
    show (Except.ok acc₁ : Except String _).map (List.map eraseTimestamp) =
      (Except.ok acc₂ : Except String _).map (List.map eraseTimestamp)
    rw [except_map_ok, except_map_ok, hacc]
  | cons g gs ih =>
    intro acc₁ acc₂ hacc
    rcases hlq : liq.lookup g.1 with _ | lq
    · rw [scoredListAux_cons_none_liq hlq, scoredListAux_cons_none_liq hlq]
      exact ih acc₁ acc₂ hacc
    rcases htt : trend.lookup g.1 with _ | tt
    · rw [scoredListAux_cons_none_trend htt, scoredListAux_cons_none_trend htt]
      exact ih acc₁ acc₂ hacc
    have hcf := calculateFinalScore_erase w g.1 lq tt g.2 n₁ n₂
    rcases hc₁ : calculateFinalScore w g.1 lq tt g.2 n₁ with e₁ | r₁ <;>
      rcases hc₂ : calculateFinalScore w g.1 lq tt g.2 n₂ with e₂ | r₂ <;>
        rw [hc₁, hc₂] at hcf
    · rw [except_map_error, except_map_error] at hcf
      injection hcf with he
      subst he
      rw [scoredListAux_cons_error hlq htt hc₁, scoredListAux_cons_error hlq htt hc₂]
    · rw [except_map_error, except_map_ok] at hcf
      cases hcf
    · rw [except_map_ok, except_map_error] at hcf
      cases hcf
    · rw [except_map_ok, except_map_ok] at hcf
      injection hcf with her
      rw [scoredListAux_cons_ok hlq htt hc₁, scoredListAux_cons_ok hlq htt hc₂]
      refine ih _ _ ?_
      rw [List.map_append, List.map_append, hacc]
      simp only [List.map_cons, List.map_nil]
      rw [her]

/-- C2 (amended): the Scoring Engine is deterministic up to the embedded
wall-clock timestamp: two invocations on identical inputs and configuration
produce the same records with the same field values in the same order in
every field except `timestamp`, which records `datetime.now()` at scoring
time.  (Byte-identical output as claimed fails; see the counterexample.) -/
theorem c2_deterministic_modulo_timestamp (eng : ScoringEngine)
    (liq trend : List (String × ℚ)) (srs : List (String × List StratResult))
    (now₁ now₂ : String) :
    (scoreAll eng liq trend srs now₁).map (List.map eraseTimestamp) =
      (scoreAll eng liq trend srs now₂).map (List.map eraseTimestamp) := by
  have herase : ∀ x : RankedRec, (eraseTimestamp x).total = x.total := fun _ => rfl
  have hsc := scoredFold_erase eng.weights liq trend now₁ now₂
    (groupSignalsByTicker srs) [] [] rfl
  show (scoredList eng.weights liq trend (groupSignalsByTicker srs) now₁ >>=
      fun allScores => pure (assignRanks 1
        ((sortScoredDesc allScores).take eng.output_count))).map (List.map eraseTimestamp) =
    (scoredList eng.weights liq trend (groupSignalsByTicker srs) now₂ >>=
      fun allScores => pure (assignRanks 1
        ((sortScoredDesc allScores).take eng.output_count))).map (List.map eraseTimestamp)
  replace hsc : (scoredList eng.weights liq trend (groupSignalsByTicker srs) now₁).map
      (List.map eraseTimestamp) =
    (scoredList eng.weights liq trend (groupSignalsByTicker srs) now₂).map
      (List.map eraseTimestamp) := hsc
  rcases h₁ : scoredList eng.weights liq trend (groupSignalsByTicker srs) now₁
    with e₁ | l₁ <;>
    rcases h₂ : scoredList eng.weights liq trend (groupSignalsByTicker srs) now₂
      with e₂ | l₂ <;> rw [h₁, h₂] at hsc
  · rw [except_map_error, except_map_error] at hsc
    injection hsc with he
    subst he
    rfl
  · rw [except_map_error, except_map_ok] at hsc
    cases hsc
  · rw [except_map_ok, except_map_error] at hsc
    cases hsc
  · rw [except_map_ok, except_map_ok] at hsc
    injection hsc with hLL
    rw [except_ok_bind, except_ok_bind, except_map_pure, except_map_pure]
    congr 1
    rw [assignRanks_erase, assignRanks_erase]
    congr 1
    rw [List.map_take, List.map_take, sortScoredDesc_map herase,
      sortScoredDesc_map herase, hLL]

end StockScreener
